import Mathlib

/-!
Verification of the shared-doc-chat repository's core pipeline.

JavaScript strings are embedded as `List Char` (named `Str` below); JS string
operations used by the source (`trim`, `split`, `includes`, `startsWith`,
`endsWith`, `slice`, `toLowerCase`) are given explicit executable definitions
that mirror ECMAScript semantics on the character sequences the code handles.
Each definition carries a comment naming the source location it embeds.
-/

set_option maxHeartbeats 1000000
set_option linter.unusedVariables false
set_option linter.unnecessarySeqFocus false

deriving instance DecidableEq for Except

abbrev Str := List Char

/-- The whitespace test used by the embedded `trim`/`split(/\s+/)`:
space, tab, newline, carriage return, vertical tab, form feed
(the ASCII portion of the ECMAScript whitespace class). -/
def isWS (c : Char) : Bool :=
  c = ' ' || c = '\t' || c = '\n' || c = '\r' || c = '\x0b' || c = '\x0c'

/-- JS `String.prototype.trim`: drop whitespace from both ends. -/
def jsTrim (s : Str) : Str :=
  ((s.dropWhile isWS).reverse.dropWhile isWS).reverse

/-- JS `String.prototype.startsWith` (second argument is the sought prefix). -/
def startsWithStr : Str → Str → Bool
  | _, [] => true
  | [], _ :: _ => false
  | c :: cs, p :: ps => c = p && startsWithStr cs ps

/-- JS `String.prototype.includes`: substring containment. -/
def containsStr (hay needle : Str) : Bool :=
  startsWithStr hay needle ||
    match hay with
    | [] => false
    | _ :: t => containsStr t needle

/-- JS `String.prototype.toLowerCase`, restricted to the simple
per-character mapping (sufficient for the ASCII data handled here). -/
def strToLower (s : Str) : Str := s.map Char.toLower

/-- JS `p.endsWith(": ")`, as used by the sync handler's pair filter. -/
def endsColonSpace (p : Str) : Bool := startsWithStr p.reverse ([' ', ':'])

/-! ## CSV parser (src/supabase/functions/chat/index.ts, `parseCsv`, lines 166-186) -/

/-- `text.replace(/\r\n/g, "\n").replace(/\r/g, "\n")`. -/
def normNl : Str → Str
  | [] => []
  | '\r' :: '\n' :: rest => '\n' :: normNl rest
  | '\r' :: rest => '\n' :: normNl rest
  | c :: rest => c :: normNl rest

/-- JS `split("\n")` (keeps empty pieces, one more piece than separators). -/
def splitNl : Str → List Str
  | [] => [[]]
  | '\n' :: rest => [] :: splitNl rest
  | c :: rest =>
    match splitNl rest with
    | [] => [[c]]
    | l :: ls => (c :: l) :: ls

/-- The per-line cell scanner of `parseCsv` (index.ts lines 172-182):
a quote toggles `inQ` unless doubled inside quotes (escaped quote);
a comma outside quotes ends the current cell; anything else accumulates. -/
def parseCells : Str → Str → Bool → List Str
  | [], cur, _ => [cur]
  | '"' :: '"' :: rest2, cur, inQ =>
    if inQ then parseCells rest2 (cur ++ ['"']) inQ
    else parseCells ('"' :: rest2) cur true
  | '"' :: rest, cur, inQ => parseCells rest cur (!inQ)
  | ',' :: rest, cur, inQ =>
    if inQ then parseCells rest (cur ++ [',']) inQ
    else cur :: parseCells rest [] inQ
  | c :: rest, cur, inQ => parseCells rest (cur ++ [c]) inQ

/-- Half of `c.replace(/^"|"$/g, "")`: drop one leading quote if present. -/
def dropLeadQuote : Str → Str
  | '"' :: rest => rest
  | s => s

/-- The other half: drop one trailing quote if present. -/
def dropTrailQuote (s : Str) : Str := (dropLeadQuote s.reverse).reverse

/-- `c.replace(/^"|"$/g, "")` on an arbitrary string: the anchored global
regex removes at most one quote from each end (the leading match is
consumed first). -/
def stripEdgeQuotes (s : Str) : Str := dropTrailQuote (dropLeadQuote s)

/-- One line of `parseCsv`: scan cells, then `c.trim().replace(/^"|"$/g,"")`. -/
def parseCsvLine (line : Str) : List Str :=
  (parseCells line [] false).map (fun c => stripEdgeQuotes (jsTrim c))

/-- `parseCsv` (index.ts lines 166-186): normalise newlines, split into
lines, skip blank lines, scan each remaining line into cells. -/
def parseCsv (text : Str) : List (List Str) :=
  ((splitNl (normNl text)).filter (fun l => !(jsTrim l).isEmpty)).map parseCsvLine

/-! ## CSV sync handler row loop (index.ts lines 245-307) -/

def colonSpace : Str := [':', ' ']

def semiSpace : Str := [';', ' ']

/-- `headers.map((h, ci) => h + ": " + (row[ci] ?? "")).filter(p => !p.endsWith(": "))`. -/
def rowPairs (headers row : List Str) : List Str :=
  (headers.enum.map (fun hi => hi.2 ++ colonSpace ++ row.getD hi.1 [])).filter
    (fun p => !endsColonSpace p)

/-- The synthesized chunk content `"Header: Value; Header: Value; ..."`. -/
def rowText (headers row : List Str) : Str :=
  List.intercalate semiSpace (rowPairs headers row)

/-- A chunk row inserted into `rag_chunks` by the CSV sync handler
(fields not used by any claim — `doc_id`, `metadata.source`,
`metadata.headers` — are constants of the loop and are omitted). -/
structure SyncChunk where
  chunk_index : Nat
  content : Str
  row_number : Nat
  token_count : Nat
deriving DecidableEq, Repr

/-- `row.every(v => !v)`: a data row all of whose cells are empty. -/
def rowIsEmpty (row : List Str) : Bool := row.all (fun v => v.isEmpty)

/-- The sync handler's data-row loop (index.ts lines 260-291): skip empty
rows, build the content text, skip rows whose text trims to nothing,
otherwise emit a chunk with `chunk_index = i`, `row_number = i + 2`,
`token_count = ceil(text.length / 4)`. -/
def buildChunks (headers : List Str) : Nat → List (List Str) → List SyncChunk
  | _, [] => []
  | i, row :: rest =>
    if rowIsEmpty row then buildChunks headers (i + 1) rest
    else
      let text := rowText headers row
      if (jsTrim text).isEmpty then buildChunks headers (i + 1) rest
      else ⟨i, text, i + 2, (text.length + 3) / 4⟩ :: buildChunks headers (i + 1) rest

def csvTooSmallMsg : Str :=
  ("CSV must have at least a header row and one data row.").toList

/-- The sync computation (index.ts lines 246-307): parse, require at least
two rows, then run the row loop. Returns the inserted chunks and the
reported `row_count` (`dataRows.length`), or the thrown error message. -/
def syncCsv (csv : Str) : Except Str (List SyncChunk × Nat) :=
  match parseCsv csv with
  | [] => .error csvTooSmallMsg
  | [_] => .error csvTooSmallMsg
  | headers :: dataRows => .ok (buildChunks headers 0 dataRows, dataRows.length)

/-! ## Keyword retrieval (index.ts lines 45-85, identical in both part_008 variants) -/

/-- The fixed stop-word list of the keyword extractor. -/
def stopWords : List Str :=
  [("the").toList, ("and").toList, ("for").toList, ("are").toList, ("was").toList,
   ("that").toList, ("with").toList, ("this").toList, ("have").toList, ("from").toList,
   ("not").toList, ("what").toList, ("how").toList, ("who").toList, ("when").toList,
   ("where").toList, ("which").toList]

/-- The regex class `\w` = `[A-Za-z0-9_]`. -/
def isWordChar (c : Char) : Bool :=
  ('a' ≤ c && c ≤ 'z') || ('A' ≤ c && c ≤ 'Z') || ('0' ≤ c && c ≤ '9') || c = '_'

/-- `replace(/[^\w\s]/g, " ")`. -/
def replaceNonWord (s : Str) : Str :=
  s.map (fun c => if !(isWordChar c || isWS c) then ' ' else c)

/-- JS `split(/\s+/)`: split on maximal whitespace runs. A `some cur` state
is the piece being accumulated; `none` means a separator run was just
consumed (a leading run therefore yields a leading empty piece, exactly as
in ECMAScript). -/
def splitWsGo : Str → Option Str → List Str
  | [], none => [[]]
  | [], some cur => [cur]
  | c :: rest, none =>
    if isWS c then splitWsGo rest none else splitWsGo rest (some [c])
  | c :: rest, some cur =>
    if isWS c then cur :: splitWsGo rest none else splitWsGo rest (some (cur ++ [c]))

def jsSplitWs (s : Str) : List Str := splitWsGo s (some [])

/-- The keyword extraction of the chat handlers (index.ts lines 45-49):
lowercase, strip punctuation, split on whitespace, keep words longer than
2 characters that are not stop words. -/
def extractKeywords (question : Str) : List Str :=
  (jsSplitWs (replaceNonWord (strToLower question))).filter
    (fun w => w.length > 2 && !(stopWords.contains w))

/-- A row of `rag_chunks` as selected by the chat handlers
(`id, chunk_index, content, metadata`); `rowNumberMeta` is
`metadata.row_number`, absent when the metadata lacks the key. -/
structure RagChunk where
  id : Str
  chunk_index : Nat
  content : Str
  rowNumberMeta : Option Nat
deriving DecidableEq, Repr

/-- The score of one candidate (index.ts lines 68-72): the number of
entries of the extracted keyword list contained in the lowercased
content. The keyword list is used as-is, so a word repeated in the
question is counted once per occurrence. -/
def scoreOf (kw : List Str) (c : RagChunk) : Nat :=
  (kw.filter (fun k => containsStr (strToLower c.content) k)).length

/-- Modelled from the spec's words for comparison with `scoreOf`
(§4.2: "the count of distinct keywords it contains"): deduplicate the
extracted keywords before counting containment. -/
def specDistinctScore (kw : List Str) (c : RagChunk) : Nat :=
  ((kw.dedup).filter (fun k => containsStr (strToLower c.content) k)).length

/-- A stable descending insertion: the new element goes after every
already-placed element of greater-or-equal key. -/
def insertDescBy {α : Type} (key : α → Nat) (x : α) : List α → List α
  | [] => [x]
  | y :: ys => if key x ≤ key y then y :: insertDescBy key x ys else x :: y :: ys

/-- Embeds `scored.sort((a, b) => b.score - a.score)` (index.ts line 73).
ECMAScript `Array.prototype.sort` is stable, and a stable sort by a total
preorder on keys is unique, so the stable descending insertion sort below
computes exactly the engine's result. -/
def sortDescBy {α : Type} (key : α → Nat) (xs : List α) : List α :=
  xs.foldl (fun acc x => insertDescBy key x acc) []

/-- Score all candidates, sort them descending (stably), keep the top 6
(index.ts lines 68-74). The score field added by the spread is kept in
the pair. -/
def rankCandidates (kw : List Str) (cands : List RagChunk) : List (RagChunk × Nat) :=
  (sortDescBy Prod.snd (cands.map (fun c => (c, scoreOf kw c)))).take 6

/-- The PostgREST filter `or(content.ilike.%k%, ...)` built from the first
five keywords (index.ts line 57): case-insensitive substring match
against any of them. -/
def matchesAnyKeyword (kw : List Str) (c : RagChunk) : Bool :=
  (kw.take 5).any (fun k => containsStr (strToLower c.content) k)

/-- The whole keyword-retrieval phase (index.ts lines 45-85): when at
least one keyword was extracted, fetch up to 12 candidates matching any
of the first five keywords (in the store's natural order), score, sort,
take 6; when no keywords or no candidates, fall back to the first 6
chunks of the store. -/
def retrieveKeyword (question : Str) (store : List RagChunk) : List RagChunk :=
  let kw := extractKeywords question
  let primary : List RagChunk :=
    if kw.length > 0 then
      (rankCandidates kw ((store.filter (matchesAnyKeyword kw)).take 12)).map Prod.fst
    else []
  if primary.length = 0 then store.take 6 else primary

/-! ## Citations (index.ts lines 138-147, part_008 lines 112-121 / 342-351) -/

structure Citation where
  chunk_id : Str
  chunk_index : Nat
  excerpt : Str
  row_number : Nat
  reference : Nat
deriving DecidableEq, Repr

/-- `chunks.map((c, i) => ({chunk_id, chunk_index, excerpt: c.content.slice(0, 250),
row_number: metadata.row_number ?? chunk_index + 2, reference: i + 1}))`. -/
def buildCitations (chunks : List RagChunk) : List Citation :=
  chunks.enum.map (fun ic =>
    ⟨ic.2.id, ic.2.chunk_index, ic.2.content.take 250,
     ic.2.rowNumberMeta.getD (ic.2.chunk_index + 2), ic.1 + 1⟩)

/-! ## JSON string encoding (`JSON.stringify` on the emitted payloads) -/

def hexDigits : Str := ("0123456789abcdef").toList

def hexDig (n : Nat) : Char := hexDigits.getD n '0'

def hexVal (c : Char) : Option Nat :=
  let i := hexDigits.indexOf c
  if i < 16 then some i else none

/-- `JSON.stringify`'s escaping of one character inside a string literal:
quote, backslash and the shorthand control escapes, `\u00XX` for the
remaining control characters, everything else verbatim. -/
def jsonEscapeChar (c : Char) : Str :=
  if c = '"' then ['\\', '"']
  else if c = '\\' then ['\\', '\\']
  else if c = '\n' then ['\\', 'n']
  else if c = '\r' then ['\\', 'r']
  else if c = '\t' then ['\\', 't']
  else if c = '\x08' then ['\\', 'b']
  else if c = '\x0c' then ['\\', 'f']
  else if c.toNat < 32 then
    ['\\', 'u', '0', '0', hexDig (c.toNat / 16), hexDig (c.toNat % 16)]
  else [c]

def jsonEscape (s : Str) : Str := (s.map jsonEscapeChar).flatten

/-- Parse the body of a JSON string literal up to its closing quote,
returning the decoded content and the input after the quote
(the string-literal fragment of `JSON.parse`). -/
def jsonStringParse : Str → Option (Str × Str)
  | [] => none
  | '"' :: rest => some ([], rest)
  | '\\' :: '"' :: r => (jsonStringParse r).map (fun p => ('"' :: p.1, p.2))
  | '\\' :: '\\' :: r => (jsonStringParse r).map (fun p => ('\\' :: p.1, p.2))
  | '\\' :: '/' :: r => (jsonStringParse r).map (fun p => ('/' :: p.1, p.2))
  | '\\' :: 'n' :: r => (jsonStringParse r).map (fun p => ('\n' :: p.1, p.2))
  | '\\' :: 'r' :: r => (jsonStringParse r).map (fun p => ('\r' :: p.1, p.2))
  | '\\' :: 't' :: r => (jsonStringParse r).map (fun p => ('\t' :: p.1, p.2))
  | '\\' :: 'b' :: r => (jsonStringParse r).map (fun p => ('\x08' :: p.1, p.2))
  | '\\' :: 'f' :: r => (jsonStringParse r).map (fun p => ('\x0c' :: p.1, p.2))
  | '\\' :: 'u' :: h1 :: h2 :: h3 :: h4 :: r =>
    match hexVal h1, hexVal h2, hexVal h3, hexVal h4 with
    | some a, some b, some c, some d =>
      (jsonStringParse r).map
        (fun p => (Char.ofNat (a * 4096 + b * 256 + c * 16 + d) :: p.1, p.2))
    | _, _, _, _ => none
  | '\\' :: _ => none
  | c :: rest => (jsonStringParse rest).map (fun p => (c :: p.1, p.2))

/-- `JSON.stringify({choices: [{delta: {content: s}}]})`, the payload the
relay emits per fragment (part_008 line 442), split around the escaped
content. -/
def deltaWrapPre : Str := ("\x7b\"choices\":[\x7b\"delta\":\x7b\"content\":\"").toList

/-- What follows the content's closing quote in the payload. -/
def deltaWrapSuf : Str := ("\x7d\x7d]\x7d").toList

def mkDeltaPayload (s : Str) : Str := deltaWrapPre ++ jsonEscape s ++ '"' :: deltaWrapSuf

/-- `JSON.parse(jsonStr).choices?.[0]?.delta?.content` on the delta-event
grammar emitted by the relay: recognises exactly the `JSON.stringify`
shape above and decodes the content; any other input yields `none`
(a parse exception or an absent field in JS). -/
def parseDeltaLine (s : Str) : Option Str :=
  if startsWithStr s deltaWrapPre then
    match jsonStringParse (s.drop deltaWrapPre.length) with
    | some p => if p.2 = deltaWrapSuf then some p.1 else none
    | none => none
  else none

/-! ## SSE stream emitted by the persist-then-replay relay
(part_008 lines 421-452) -/

def dataTag : Str := ("data: ").toList

def doneLine : Str := ("data: [DONE]").toList

def doneTok : Str := ("[DONE]").toList

def nl2 : Str := ['\n', '\n']

/-- One simulated streaming event: `data: {payload}\n\n`. -/
def deltaEvent (chunk : Str) : Str := dataTag ++ mkDeltaPayload chunk ++ nl2

def doneEvent : Str := doneLine ++ nl2

/-- `JSON.stringify` of a natural number: plain decimal digits. -/
def natToStr (n : Nat) : Str :=
  if n < 10 then [hexDig n] else natToStr (n / 10) ++ [hexDig (n % 10)]
termination_by n
decreasing_by omega

/-- `JSON.stringify` of one citation object (insertion order of the
object literal in part_008 lines 114-120). -/
def citObjJson (c : Citation) : Str :=
  ("\x7b\"chunk_id\":\"").toList ++ jsonEscape c.chunk_id ++
  ("\",\"chunk_index\":").toList ++ natToStr c.chunk_index ++
  (",\"excerpt\":\"").toList ++ jsonEscape c.excerpt ++
  ("\",\"row_number\":").toList ++ natToStr c.row_number ++
  (",\"reference\":").toList ++ natToStr c.reference ++ ("\x7d").toList

/-- `JSON.stringify` of the citations array. -/
def citsJson (cs : List Citation) : Str :=
  '[' :: (List.intercalate [','] (cs.map citObjJson) ++ [']'])

/-- The preamble `event: citations\ndata: {JSON array}\n\n` (line 426). -/
def citationsEvent (cs : List Citation) : Str :=
  ("event: citations\ndata: ").toList ++ citsJson cs ++ nl2

/-- `fullAnswer.slice(i, i + 6)` stepping by 6 (part_008 lines 429-433). -/
def chunkEvery {α : Type} (n : Nat) (l : List α) : List (List α) :=
  if h : l.isEmpty || n == 0 then [] else l.take n :: chunkEvery n (l.drop n)
termination_by l.length
decreasing_by
  simp only [List.isEmpty_iff, beq_iff_eq, Bool.or_eq_true, decide_eq_true_eq] at h
  push_neg at h
  rcases h with ⟨h1, h2⟩
  cases l with
  | nil => exact absurd rfl h1
  | cons a t => simp only [List.length_drop]; simp; omega

/-- The full byte stream the persist-then-replay relay returns: citations
preamble, one delta event per 6-character slice of the collected answer,
then `data: [DONE]\n\n` (part_008 lines 421-452). -/
def relayBytes (cs : List Citation) (fullAnswer : Str) : Str :=
  citationsEvent cs ++ ((chunkEvery 6 fullAnswer).map deltaEvent).flatten ++ doneEvent

/-! ## Upstream answer accumulation (part_008 lines 386-408; the
persist-after-forward variant's lines 167-196 accumulate identically) -/

/-- `if (line.endsWith("\r")) line = line.slice(0, -1)`. -/
def stripCr (line : Str) : Str :=
  if line.getLast? = some '\r' then line.dropLast else line

/-- Accumulation from one complete upstream line (part_008 lines 400-407):
only `data: ` lines other than `data: [DONE]` contribute; a JSON parse
failure or an absent/empty delta contributes nothing. -/
def processLineUp (answer : Str) (line0 : Str) : Str :=
  let line := stripCr line0
  if startsWithStr line dataTag && line ≠ doneLine then
    match parseDeltaLine (line.drop 6) with
    | some delta => if delta.isEmpty then answer else answer ++ delta
    | none => answer
  else answer

/-- The buffer-draining loop (part_008 lines 396-407): scan the buffer,
feed each `\n`-terminated line to the accumulator, keep the trailing
newline-free remainder buffered. Returns (remaining buffer, answer). -/
def drainUpGo : Str → Str → Str → Str × Str
  | [], cur, ans => (cur, ans)
  | '\n' :: rest, cur, ans => drainUpGo rest [] (processLineUp ans cur)
  | c :: rest, cur, ans => drainUpGo rest (cur ++ [c]) ans

/-- The whole upstream reading loop (part_008 lines 388-408): per byte
chunk, append to the buffer and drain complete lines; the final partial
line, if any, is never parsed into the answer. -/
def accumAnswer (fragments : List Str) : Str :=
  (fragments.foldl (fun st frag => drainUpGo (st.1 ++ frag) [] st.2) (([] : Str), ([] : Str))).2

/-! ## Assistant-message persistence (part_008 lines 410-419; the
persist-after-forward variant's lines 203-212 are the same statement) -/

structure ChatMessage where
  conversation_id : Str
  user_id : Str
  role : Str
  content : Str
  citations : List Citation
deriving DecidableEq, Repr

def assistantRole : Str := ("assistant").toList

/-- `if (conversation_id && user?.id && fullAnswer) insert({...})`:
JS string truthiness is non-emptiness (an absent `conversation_id` is
embedded as the empty string). -/
def persistAssistant (conversationId userId fullAnswer : Str) (cits : List Citation) :
    List ChatMessage :=
  if !conversationId.isEmpty && !userId.isEmpty && !fullAnswer.isEmpty then
    [⟨conversationId, userId, assistantRole, fullAnswer, cits⟩]
  else []

/-! ## Upstream status mapping and the relay outcome -/

def rateLimitMsg : Str := ("Rate limit exceeded. Please try again in a moment.").toList

def quotaMsg : Str := ("AI usage limit reached. Please add credits.").toList

def llmErrorMsg (status : Nat) (body : Str) : Str :=
  ("LLM error (").toList ++ natToStr status ++ ("): ").toList ++ body

/-- The upstream completion response as seen by a handler: HTTP status,
`ok` flag, error body text, and the SSE byte chunks of a successful
stream. -/
structure UpstreamResp where
  ok : Bool
  status : Nat
  errBody : Str
  fragments : List Str

/-- A handler outcome: HTTP status, the `{error: msg}` JSON body when the
response is an error, the SSE bytes when it is a stream, and the message
rows inserted during the invocation. -/
structure RelayResult where
  status : Nat
  errMsg : Option Str
  sse : Str
  persisted : List ChatMessage
deriving DecidableEq, Repr

/-- The persist-then-replay relay (part_008 lines 354-461) from the point
the upstream response is known: 429 and 402 are returned directly with
fixed messages; any other non-ok status is thrown and caught by the
handler's catch block, which answers 500; on success the full answer is
collected, persisted (at most once) and replayed as SSE. -/
def relayStreamB (up : UpstreamResp) (conversationId userId : Str) (cits : List Citation) :
    RelayResult :=
  if up.ok = false then
    if up.status = 429 then ⟨429, some rateLimitMsg, [], []⟩
    else if up.status = 402 then ⟨402, some quotaMsg, [], []⟩
    else ⟨500, some (llmErrorMsg up.status up.errBody), [], []⟩
  else
    let fullAnswer := accumAnswer up.fragments
    ⟨200, none, relayBytes cits fullAnswer,
     persistAssistant conversationId userId fullAnswer cits⟩

/-- The non-streaming chat handler's status mapping (index.ts lines
128-133): every non-ok status becomes a thrown `Error`, including 429 and
402, whose fixed messages are thrown rather than returned. -/
def chatLlmGate (ok : Bool) (status : Nat) (body : Str) : Except Str Unit :=
  if ok then .ok ()
  else if status = 429 then .error rateLimitMsg
  else if status = 402 then .error quotaMsg
  else .error (llmErrorMsg status body)

/-- The non-streaming chat handler outcome from the upstream response
(index.ts lines 113-157): the catch block turns every thrown message into
an HTTP 500 `{error: msg}` response; this handler never inserts message
rows. -/
def chatNonStreaming (up : UpstreamResp) : RelayResult :=
  match chatLlmGate up.ok up.status up.errBody with
  | .error msg => ⟨500, some msg, [], []⟩
  | .ok _ => ⟨200, none, [], []⟩

/-! ## The client's SSE reader (src/src/pages/ChatPage.tsx lines 77-155) -/

def eventCitationsPre : Str := ("event: citations").toList

def zeroGuard : Str := ("\x7b\"0\"").toList

/-- The client's line loop (ChatPage lines 84-133) on one delivered byte
chunk, scanning character by character: a `\n` completes the current
line, which is processed with the rest of the buffer visible to the
guards that inspect `textBuffer`. Returns the accumulated answer and the
leftover buffer handed to the flush step (on `[DONE]` the loop breaks
with the rest unconsumed; on a parse failure the line is put back). The
branch reading `JSON.parse(jsonStr)` then testing `Array.isArray` is
embedded as the `[`-prefix test plus `parseDeltaLine`, which agree with
the JS on every line the relay emits. -/
def clientGo : Str → Str → Str → Str × Str
  | [], cur, acc => (acc, cur)
  | '\n' :: rest, cur, acc =>
    let line := stripCr cur
    if (jsTrim line).isEmpty || startsWithStr line [':'] then clientGo rest [] acc
    else if startsWithStr line eventCitationsPre then clientGo rest [] acc
    else if startsWithStr line dataTag && !startsWithStr rest zeroGuard then
      let jsonStr := jsTrim (line.drop 6)
      if rest.isEmpty && startsWithStr jsonStr ['['] then clientGo rest [] acc
      else if jsonStr = doneTok then (acc, rest)
      else if startsWithStr jsonStr ['['] then clientGo rest [] acc
      else
        match parseDeltaLine jsonStr with
        | some delta => clientGo rest [] (if delta.isEmpty then acc else acc ++ delta)
        | none => (acc, cur ++ '\n' :: rest)
    else clientGo rest [] acc
  | c :: rest, cur, acc => clientGo rest (cur ++ [c]) acc

/-- The flush of the remaining buffer (ChatPage lines 136-155). -/
def clientFlushLine (acc raw : Str) : Str :=
  if raw.isEmpty || startsWithStr raw [':'] then acc
  else if !startsWithStr raw dataTag then acc
  else
    let jsonStr := jsTrim (raw.drop 6)
    if jsonStr = doneTok then acc
    else if startsWithStr jsonStr ['['] then acc
    else
      match parseDeltaLine jsonStr with
      | some delta => if delta.isEmpty then acc else acc ++ delta
      | none => acc

def clientFlush (leftover acc : Str) : Str :=
  if (jsTrim leftover).isEmpty then acc
  else (splitNl leftover).foldl clientFlushLine acc

/-- The client's whole reconstruction of one delivered stream: run the
line loop over the bytes, then flush the leftover buffer. -/
def clientRun (stream : Str) : Str :=
  let r := clientGo stream [] []
  clientFlush r.2 r.1

/-! ## Free-text chunking (part_009 lines 10-20, `chunkText`) -/

/-- JS `slice(a, b)` for `0 ≤ a ≤ b`. -/
def sliceStr (s : Str) (a b : Nat) : Str := (s.drop a).take (b - a)

/-- The sliding-window loop of `chunkText` with the call site's default
parameters `chunkSize = 2000`, `overlap = 200`: window `[start,
min(start+2000, len))`, trimmed, advancing by `2000 - 200 = 1800` until a
window reaches the end of the text. -/
def chunkLoop (text : Str) (start : Nat) : List Str :=
  if h : start < text.length then
    if min (start + 2000) text.length = text.length then
      [jsTrim (sliceStr text start (min (start + 2000) text.length))]
    else
      jsTrim (sliceStr text start (min (start + 2000) text.length)) ::
        chunkLoop text (start + 1800)
  else []
termination_by text.length - start
decreasing_by omega

/-- `chunkText(text)`: run the loop from 0 and drop empty (all-whitespace,
trimmed-away) pieces. -/
def chunkText (text : Str) : List Str :=
  (chunkLoop text 0).filter (fun c => c.length > 0)

/-- The window start positions the loop visits, defined by the same
recursion, for stating the advance-by-1800 property. -/
def windowStarts (n : Nat) (start : Nat) : List Nat :=
  if start < n then
    (if min (start + 2000) n = n then [start] else start :: windowStarts n (start + 1800))
  else []
termination_by n - start
decreasing_by omega

/-! ## Sync status traces (index.ts lines 233-316; part_009 lines 98-167) -/

inductive SyncEv
  | statusSet (status : Str) (errorMessage : Option Str)
  | deleteChunks
  | insertRows (count : Nat)
  | respond (httpStatus : Nat) (errMsg : Option Str)
deriving DecidableEq, Repr

def statusSyncing : Str := ("syncing").toList

def statusDone : Str := ("done").toList

def statusError : Str := ("error").toList

/-- The CSV handler's batched inserts (index.ts lines 286-297): one
storage call per full batch of 50 plus one for the remainder, stopping at
the first storage error, whose message is thrown. The injected
`insErr k` is the storage collaborator's reply to the k-th insert. -/
def runCsvInserts (batches : List (List SyncChunk)) (insErr : Nat → Option Str) (k : Nat) :
    List SyncEv × Option Str :=
  match batches with
  | [] => ([], none)
  | b :: bs =>
    match insErr k with
    | some e => ([.insertRows b.length], some e)
    | none =>
      let r := runCsvInserts bs insErr (k + 1)
      (.insertRows b.length :: r.1, r.2)

/-- The CSV sync handler's observable event trace from the point the
status row is set to `syncing` (index.ts lines 233-316): parse, throw on
fewer than 2 rows, delete the old generation, insert in batches of 50;
the catch block sets the status row to `error` with the thrown message
and then answers 500 with the same message; success sets `done` and
answers 200 (`chunk_count`/timestamps elided from the status record). -/
def syncCsvTrace (csv : Str) (insErr : Nat → Option Str) : List SyncEv :=
  .statusSet statusSyncing none ::
    (match parseCsv csv with
     | [] => [.statusSet statusError (some csvTooSmallMsg), .respond 500 (some csvTooSmallMsg)]
     | [_] => [.statusSet statusError (some csvTooSmallMsg), .respond 500 (some csvTooSmallMsg)]
     | headers :: dataRows =>
       let chunks := buildChunks headers 0 dataRows
       let ins := runCsvInserts (chunkEvery 50 chunks) insErr 0
       .deleteChunks ::
         (ins.1 ++
          match ins.2 with
          | some e => [.statusSet statusError (some e), .respond 500 (some e)]
          | none => [.statusSet statusDone none, .respond 200 none]))

def embedFailPre : Str := ("Embedding failed: ").toList

/-- The embedding sync loop (part_009 lines 128-139): per chunk, call the
embed service (a non-2xx reply throws `Embedding failed: {body}`), then
insert the row (a storage error message is thrown as-is). -/
def runEmbedInserts (chunks : List Str) (embedErr insErr : Nat → Option Str) (k : Nat) :
    List SyncEv × Option Str :=
  match chunks with
  | [] => ([], none)
  | _ :: cs =>
    match embedErr k with
    | some e => ([], some (embedFailPre ++ e))
    | none =>
      match insErr k with
      | some e => ([.insertRows 1], some e)
      | none =>
        let r := runEmbedInserts cs embedErr insErr (k + 1)
        (.insertRows 1 :: r.1, r.2)

/-- The embedding sync handler's event trace from the `syncing` update
(part_009 lines 98-167), with the same catch-block discipline: any
failure updates the status row to `error` with the message and then
answers 500 with that message. -/
def embedSyncTrace (content : Str) (embedErr insErr : Nat → Option Str) : List SyncEv :=
  .statusSet statusSyncing none ::
    .deleteChunks ::
      (let r := runEmbedInserts (chunkText content) embedErr insErr 0
       r.1 ++
        match r.2 with
        | some e => [.statusSet statusError (some e), .respond 500 (some e)]
        | none => [.statusSet statusDone none, .respond 200 none])

/-! # Theorems -/

/-! ## Generic string/list facts used below -/

theorem jsTrim_ne_nil_of_mem {s : Str} {c : Char} (hc : c ∈ s) (hw : isWS c = false) :
    jsTrim s ≠ [] := by
  intro h
  unfold jsTrim at h
  rw [List.reverse_eq_nil_iff, List.dropWhile_eq_nil_iff] at h
  have h2 : ∀ x ∈ s.dropWhile isWS, isWS x = true :=
    fun x hx => h x (List.mem_reverse.mpr hx)
  have h3 : ∀ x ∈ s.takeWhile isWS, isWS x = true :=
    fun x hx => List.mem_takeWhile_imp hx
  have hc' : c ∈ s.takeWhile isWS ++ s.dropWhile isWS := by
    rw [List.takeWhile_append_dropWhile]; exact hc
  rcases List.mem_append.mp hc' with h4 | h4
  · rw [h3 c h4] at hw; cases hw
  · rw [h2 c h4] at hw; cases hw

theorem head_dropWhile_false {α : Type} {p : α → Bool} :
    ∀ {l : List α} {x : α} {xs : List α}, List.dropWhile p l = x :: xs → p x = false := by
  intro l
  induction l with
  | nil => intro x xs h; simp [List.dropWhile] at h
  | cons a t ih =>
    intro x xs h
    rw [List.dropWhile_cons] at h
    by_cases hp : p a = true
    · rw [if_pos hp] at h; exact ih h
    · rw [if_neg hp] at h
      injection h with h1 h2
      subst h1
      simpa using hp

theorem rev_head_not_ws {v : Str} (hfix : jsTrim v = v) (hne : v ≠ []) :
    ∃ x xs, v.reverse = x :: xs ∧ isWS x = false := by
  have hrev : v.reverse = List.dropWhile isWS (v.dropWhile isWS).reverse := by
    conv_lhs => rw [← hfix]
    unfold jsTrim
    rw [List.reverse_reverse]
  have hrne : v.reverse ≠ [] := by simpa using hne
  obtain ⟨x, xs, hx⟩ : ∃ x xs, v.reverse = x :: xs := by
    cases hv : v.reverse with
    | nil => exact absurd hv hrne
    | cons a t => exact ⟨a, t, rfl⟩
  refine ⟨x, xs, hx, ?_⟩
  have hd : List.dropWhile isWS (v.dropWhile isWS).reverse = x :: xs := by
    rw [← hrev, hx]
  exact head_dropWhile_false hd

theorem mem_intersperse_of_mem {α : Type} {x : α} (a : α) {l : List α} (h : x ∈ l) :
    x ∈ List.intersperse a l := by
  induction l with
  | nil => cases h
  | cons b tl ih =>
    cases tl with
    | nil => simpa using h
    | cons c tl' =>
      rw [List.intersperse_cons_cons]
      rcases List.mem_cons.mp h with h1 | h1
      · exact h1 ▸ List.mem_cons_self _ _
      · exact List.mem_cons_of_mem _ (List.mem_cons_of_mem _ (ih h1))

theorem mem_intercalate_of_mem {c : Char} {p : Str} {ps : List Str} (sep : Str)
    (hp : p ∈ ps) (hc : c ∈ p) : c ∈ List.intercalate sep ps := by
  unfold List.intercalate
  exact List.mem_flatten.mpr ⟨p, mem_intersperse_of_mem sep hp, hc⟩

/-! ## Ingestion: the sync row loop (C1) -/

theorem endsColonSpace_false_of {h v : Str} {x : Char} {xs : Str}
    (hx : v.reverse = x :: xs) (hw : isWS x = false) :
    endsColonSpace (h ++ colonSpace ++ v) = false := by
  unfold endsColonSpace colonSpace
  rw [List.reverse_append, hx]
  simp only [startsWithStr, List.cons_append]
  have hxs : x ≠ ' ' := by
    intro he
    rw [he] at hw
    simp [isWS] at hw
  simp [startsWithStr, hxs]

theorem rowText_not_blank {headers row : List Str}
    (hlen : row.length = headers.length)
    (hcells : ∀ v ∈ row, jsTrim v = v)
    (hne : rowIsEmpty row = false) :
    (jsTrim (rowText headers row)).isEmpty = false := by
  rw [List.isEmpty_eq_false]
  unfold rowIsEmpty at hne
  obtain ⟨v, hvmem, hvne'⟩ := List.all_eq_false.mp hne
  have hv : v ≠ [] := by simpa [List.isEmpty_iff] using hvne'
  obtain ⟨i, hi, hieq⟩ := List.mem_iff_getElem.mp hvmem
  have hfix := hcells v hvmem
  obtain ⟨x, xs, hxrev, hxw⟩ := rev_head_not_ws hfix hv
  have hi' : i < headers.length := by omega
  have hgetD : row.getD i [] = v := by
    rw [List.getD_eq_getElem row [] hi, hieq]
  have hpair : headers[i] ++ colonSpace ++ v ∈ rowPairs headers row := by
    unfold rowPairs
    refine List.mem_filter.mpr ⟨?_, ?_⟩
    · refine List.mem_map.mpr ⟨(i, headers[i]), ?_, ?_⟩
      · rw [List.mem_iff_getElem]
        exact ⟨i, by simpa [List.enum_length] using hi', by simp [List.getElem_enum]⟩
      · show headers[i] ++ colonSpace ++ row.getD i [] = headers[i] ++ colonSpace ++ v
        rw [hgetD]
    · have hf := endsColonSpace_false_of (h := headers[i]) hxrev hxw
      simp only [List.append_assoc] at hf ⊢
      simp [hf]
  have hxv : x ∈ v := List.mem_reverse.mp (hxrev ▸ List.mem_cons_self x xs)
  have hxp : x ∈ headers[i] ++ colonSpace ++ v :=
    List.mem_append.mpr (Or.inr hxv)
  have hxt : x ∈ rowText headers row :=
    mem_intercalate_of_mem semiSpace hpair hxp
  exact jsTrim_ne_nil_of_mem hxt hxw

theorem buildChunks_length (headers : List Str) :
    ∀ rows i, (∀ r ∈ rows, r.length = headers.length ∧ ∀ v ∈ r, jsTrim v = v) →
      (buildChunks headers i rows).length = (rows.filter (fun r => !rowIsEmpty r)).length := by
  intro rows
  induction rows with
  | nil => intro i _; simp [buildChunks]
  | cons row rest ih =>
    intro i hval
    have hrow := hval row (List.mem_cons_self _ _)
    have ihr := ih (i + 1) (fun r hr => hval r (List.mem_cons_of_mem _ hr))
    by_cases hE : rowIsEmpty row = true
    · simp [buildChunks, hE, List.filter_cons, ihr]
    · have hE' : rowIsEmpty row = false := by simpa using hE
      have hb := rowText_not_blank hrow.1 hrow.2 hE'
      simp [buildChunks, hE', hb, List.filter_cons, ihr]

theorem buildChunks_row_number (headers : List Str) :
    ∀ rows i c, c ∈ buildChunks headers i rows → c.row_number = c.chunk_index + 2 := by
  intro rows
  induction rows with
  | nil => intro i c hc; simp [buildChunks] at hc
  | cons row rest ih =>
    intro i c hc
    simp only [buildChunks] at hc
    by_cases hE : rowIsEmpty row = true
    · rw [if_pos hE] at hc
      exact ih (i + 1) c hc
    · rw [if_neg hE] at hc
      by_cases hb : (jsTrim (rowText headers row)).isEmpty = true
      · rw [if_pos hb] at hc
        exact ih (i + 1) c hc
      · rw [if_neg hb] at hc
        rcases List.mem_cons.mp hc with h1 | h1
        · rw [h1]
        · exact ih (i + 1) c h1

/-- C1: for valid CSV input (the parsed table is rectangular and its cells
carry no leading/trailing whitespace) with a header row and at least one
non-empty data row, the sync handler emits exactly one chunk per
non-empty data row, each with `row_number = chunk_index + 2` where
`chunk_index` is the data-row index; in particular the CSV
`"name,age\nAlice,30\nBob,25"` yields 2 chunks, Bob's with content
`"name: Bob; age: 25"` and `row_number = 3`. -/
theorem c1_sync_row_chunks :
    (∀ csv headers dataRows,
      parseCsv csv = headers :: dataRows →
      (∃ r ∈ dataRows, rowIsEmpty r = false) →
      (∀ r ∈ dataRows, r.length = headers.length ∧ ∀ v ∈ r, jsTrim v = v) →
      syncCsv csv = .ok (buildChunks headers 0 dataRows, dataRows.length) ∧
      (buildChunks headers 0 dataRows).length =
        (dataRows.filter (fun r => !rowIsEmpty r)).length ∧
      ∀ c ∈ buildChunks headers 0 dataRows, c.row_number = c.chunk_index + 2) ∧
    syncCsv (("name,age\nAlice,30\nBob,25").toList) =
      .ok ([⟨0, ("name: Alice; age: 30").toList, 2, 5⟩,
            ⟨1, ("name: Bob; age: 25").toList, 3, 5⟩], 2) := by
  constructor
  · intro csv headers dataRows hparse hnonempty hval
    refine ⟨?_, buildChunks_length headers dataRows 0 hval,
            fun c hc => buildChunks_row_number headers dataRows 0 c hc⟩
    cases dataRows with
    | nil =>
      obtain ⟨r, hr, _⟩ := hnonempty
      cases hr
    | cons d ds =>
      unfold syncCsv
      rw [hparse]
  · decide

/-- Witness for C1: the general statement applied to the scenario CSV,
all hypotheses discharged by computation. -/
theorem c1_sync_row_chunks_witness :
    syncCsv (("name,age\nAlice,30\nBob,25").toList) =
      .ok (buildChunks [("name").toList, ("age").toList] 0
            [[("Alice").toList, ("30").toList], [("Bob").toList, ("25").toList]], 2) ∧
    (buildChunks [("name").toList, ("age").toList] 0
      [[("Alice").toList, ("30").toList], [("Bob").toList, ("25").toList]]).length =
      ([[("Alice").toList, ("30").toList], [("Bob").toList, ("25").toList]].filter
        (fun r => !rowIsEmpty r)).length ∧
    ∀ c ∈ buildChunks [("name").toList, ("age").toList] 0
        [[("Alice").toList, ("30").toList], [("Bob").toList, ("25").toList]],
      c.row_number = c.chunk_index + 2 :=
  c1_sync_row_chunks.1 (("name,age\nAlice,30\nBob,25").toList) _ _
    (by decide) (by decide) (by decide)

/-- C4: `parseCsv` splits the input into lines before any quote handling,
so a quoted field containing a line break is torn apart: the input
`a,"b\nc"` parses to the two rows `["a", "b"]` and `["c"]` instead of the
single row `["a", "b\nc"]` required by RFC 4180 and by the parser's own
documentation comment. -/
theorem c4_quoted_newline_splits_rows :
    parseCsv (("a,\"b\nc\"").toList) = [[['a'], ['b']], [['c']]] ∧
    parseCsv (("a,\"b\nc\"").toList) ≠ [[['a'], ('b' :: '\n' :: ['c'])]] := by
  decide

/-! ## Free-text chunking (C10) -/

theorem dropWhile_length_le {α : Type} {p : α → Bool} :
    ∀ l : List α, (List.dropWhile p l).length ≤ l.length := by
  intro l
  induction l with
  | nil => simp
  | cons a t ih =>
    rw [List.dropWhile_cons]
    by_cases hp : p a = true
    · rw [if_pos hp]; exact Nat.le_succ_of_le ih
    · rw [if_neg hp]

theorem jsTrim_length_le (s : Str) : (jsTrim s).length ≤ s.length := by
  unfold jsTrim
  calc ((s.dropWhile isWS).reverse.dropWhile isWS).reverse.length
      = ((s.dropWhile isWS).reverse.dropWhile isWS).length := by rw [List.length_reverse]
    _ ≤ (s.dropWhile isWS).reverse.length := dropWhile_length_le _
    _ = (s.dropWhile isWS).length := by rw [List.length_reverse]
    _ ≤ s.length := dropWhile_length_le _

theorem sliceStr_length_le (s : Str) (a b : Nat) : (sliceStr s a b).length ≤ b - a := by
  unfold sliceStr
  rw [List.length_take]
  omega

theorem chunkLoop_piece_le (text : Str) :
    ∀ start, ∀ c ∈ chunkLoop text start, c.length ≤ 2000 := by
  intro start
  induction start using chunkLoop.induct text with
  | case1 s hs he =>
    rw [chunkLoop, dif_pos hs, if_pos he]
    intro c hc
    rw [List.mem_singleton] at hc
    subst hc
    calc (jsTrim (sliceStr text s (min (s + 2000) text.length))).length
        ≤ (sliceStr text s (min (s + 2000) text.length)).length := jsTrim_length_le _
      _ ≤ min (s + 2000) text.length - s := sliceStr_length_le _ _ _
      _ ≤ 2000 := by omega
  | case2 s hs he ih =>
    rw [chunkLoop, dif_pos hs, if_neg he]
    intro c hc
    rcases List.mem_cons.mp hc with h1 | h1
    · subst h1
      calc (jsTrim (sliceStr text s (min (s + 2000) text.length))).length
          ≤ (sliceStr text s (min (s + 2000) text.length)).length := jsTrim_length_le _
        _ ≤ min (s + 2000) text.length - s := sliceStr_length_le _ _ _
        _ ≤ 2000 := by omega
    · exact ih c h1
  | case3 s hs =>
    rw [chunkLoop, dif_neg hs]
    intro c hc
    cases hc

theorem chunkLoop_eq_map_windowStarts (text : Str) :
    ∀ start, chunkLoop text start = (windowStarts text.length start).map
      (fun s => jsTrim (sliceStr text s (min (s + 2000) text.length))) := by
  intro start
  induction start using chunkLoop.induct text with
  | case1 s hs he =>
    rw [chunkLoop, dif_pos hs, if_pos he, windowStarts, if_pos hs, if_pos he]
    simp
  | case2 s hs he ih =>
    rw [chunkLoop, dif_pos hs, if_neg he, windowStarts, if_pos hs, if_neg he]
    simp [ih]
  | case3 s hs =>
    rw [chunkLoop, dif_neg hs, windowStarts, if_neg hs]
    simp

theorem windowStarts_arith (n : Nat) :
    ∀ start m, start = 1800 * m →
      ∃ k, windowStarts n start = (List.range' m k).map (fun j => 1800 * j) := by
  intro start
  induction start using windowStarts.induct n with
  | case1 s hs he =>
    intro m hm
    refine ⟨1, ?_⟩
    rw [windowStarts, if_pos hs, if_pos he]
    simp [List.range'_succ, hm]
  | case2 s hs he ih =>
    intro m hm
    subst hm
    obtain ⟨k, hk⟩ := ih (m + 1) (by omega)
    refine ⟨k + 1, ?_⟩
    rw [windowStarts, if_pos hs, if_neg he, List.range'_succ, List.map_cons, hk]
  | case3 s hs =>
    intro m hm
    exact ⟨0, by rw [windowStarts, if_neg hs]; simp⟩

/-- C10: `chunkText` is total (it is defined by recursion on the strictly
decreasing measure `text.length - start`, the loop advancing `start` by
`chunkSize - overlap = 1800 > 0`); every chunk it returns is non-empty
and at most 2000 characters long; and the pieces are exactly the trimmed
windows `[s, min(s+2000, len))` taken at start positions `0, 1800, 3600,
...` — successive window starts advance by exactly 1800. -/
theorem c10_chunkText_windows (text : Str) :
    (∀ c ∈ chunkText text, c ≠ [] ∧ c.length ≤ 2000) ∧
    chunkText text = ((windowStarts text.length 0).map
        (fun s => jsTrim (sliceStr text s (min (s + 2000) text.length)))).filter
      (fun c => c.length > 0) ∧
    ∃ k, windowStarts text.length 0 = (List.range k).map (fun j => 1800 * j) := by
  refine ⟨?_, ?_, ?_⟩
  · intro c hc
    unfold chunkText at hc
    obtain ⟨hmem, hpos⟩ := List.mem_filter.mp hc
    refine ⟨?_, chunkLoop_piece_le text 0 c hmem⟩
    intro hnil
    subst hnil
    simp at hpos
  · unfold chunkText
    rw [chunkLoop_eq_map_windowStarts]
  · obtain ⟨k, hk⟩ := windowStarts_arith text.length 0 0 (by omega)
    exact ⟨k, by rw [hk, List.range_eq_range']⟩

/-! ## Citations (C9) -/

/-- C9: for a non-empty retrieval result, the citation list pairs up with
the chunk list; the i-th citation's excerpt is a prefix of the i-th
chunk's content of length at most 250, and its `reference` is `i + 1`,
the 1-based position in the retrieval-ranked list. -/
theorem c9_citation_excerpt_reference (chunks : List RagChunk) (hne : chunks ≠ []) :
    (buildCitations chunks).length = chunks.length ∧
    ∀ i, i < chunks.length →
      ∃ c cit, chunks[i]? = some c ∧ (buildCitations chunks)[i]? = some cit ∧
        cit.excerpt ++ c.content.drop 250 = c.content ∧
        cit.excerpt.length ≤ 250 ∧
        cit.reference = i + 1 := by
  constructor
  · unfold buildCitations
    rw [List.length_map, List.enum_length]
  · intro i hi
    refine ⟨chunks[i], ⟨chunks[i].id, chunks[i].chunk_index, chunks[i].content.take 250,
      chunks[i].rowNumberMeta.getD (chunks[i].chunk_index + 2), i + 1⟩,
      List.getElem?_eq_getElem hi, ?_, ?_, ?_, rfl⟩
    · unfold buildCitations
      rw [List.getElem?_map, List.getElem?_eq_getElem (by simpa [List.enum_length] using hi)]
      simp [List.getElem_enum]
    · exact List.take_append_drop 250 chunks[i].content
    · rw [List.length_take]
      omega

/-- Witness for C9 at a concrete one-chunk retrieval result. -/
theorem c9_citation_excerpt_reference_witness :
    ([(⟨("idA").toList, 0, ("age").toList, none⟩ : RagChunk)] ≠ []) ∧
    ((buildCitations [⟨("idA").toList, 0, ("age").toList, none⟩]).length =
      [(⟨("idA").toList, 0, ("age").toList, none⟩ : RagChunk)].length ∧
     ∀ i, i < [(⟨("idA").toList, 0, ("age").toList, none⟩ : RagChunk)].length →
      ∃ c cit, [(⟨("idA").toList, 0, ("age").toList, none⟩ : RagChunk)][i]? = some c ∧
        (buildCitations [⟨("idA").toList, 0, ("age").toList, none⟩])[i]? = some cit ∧
        cit.excerpt ++ c.content.drop 250 = c.content ∧
        cit.excerpt.length ≤ 250 ∧
        cit.reference = i + 1) :=
  ⟨by decide, c9_citation_excerpt_reference [⟨("idA").toList, 0, ("age").toList, none⟩]
    (by decide)⟩

/-! ## Keyword retrieval bound and fallback (C6) -/

theorem rankCandidates_length_le (kw : List Str) (cands : List RagChunk) :
    (rankCandidates kw cands).length ≤ 6 := by
  unfold rankCandidates
  rw [List.length_take]
  omega

/-- C6: keyword retrieval never returns more than 6 chunks; and when the
store is non-empty but either no keyword survives extraction or no chunk
contains any extracted keyword, the fallback returns the first
`min(6, totalChunks)` chunks — never an empty set. -/
theorem c6_retrieval_bound_and_fallback :
    (∀ q store, (retrieveKeyword q store).length ≤ 6) ∧
    (∀ q store, store ≠ [] →
      (extractKeywords q = [] ∨
        ∀ c ∈ store, ∀ k ∈ extractKeywords q,
          containsStr (strToLower c.content) k = false) →
      retrieveKeyword q store = store.take 6 ∧
      (retrieveKeyword q store).length = min 6 store.length ∧
      retrieveKeyword q store ≠ []) := by
  constructor
  · intro q store
    simp only [retrieveKeyword]
    by_cases hkw : (extractKeywords q).length > 0
    · rw [if_pos hkw]
      by_cases hz : ((rankCandidates (extractKeywords q)
          ((store.filter (matchesAnyKeyword (extractKeywords q))).take 12)).map
            Prod.fst).length = 0
      · rw [if_pos hz, List.length_take]; omega
      · rw [if_neg hz, List.length_map]
        exact rankCandidates_length_le _ _
    · rw [if_neg hkw]
      simp [List.length_take]
  · intro q store hne hcond
    have hprim : (if (extractKeywords q).length > 0 then
        ((rankCandidates (extractKeywords q)
          ((store.filter (matchesAnyKeyword (extractKeywords q))).take 12)).map
            Prod.fst)
      else []) = [] := by
      rcases hcond with hkw | hmatch
      · rw [if_neg (by simp [hkw])]
      · by_cases hkw : (extractKeywords q).length > 0
        · rw [if_pos hkw]
          have hfil : store.filter (matchesAnyKeyword (extractKeywords q)) = [] := by
            rw [List.filter_eq_nil_iff]
            intro c hc
            unfold matchesAnyKeyword
            rw [Bool.not_eq_true, List.any_eq_false]
            intro k hk
            rw [hmatch c hc k (List.take_subset 5 _ hk)]
            simp
          rw [hfil]
          simp [rankCandidates, sortDescBy]
        · rw [if_neg hkw]
    have hres : retrieveKeyword q store = store.take 6 := by
      simp only [retrieveKeyword]
      rw [hprim]
      simp
    refine ⟨hres, ?_, ?_⟩
    · rw [hres, List.length_take]
    · rw [hres]
      simp [List.take_eq_nil_iff, hne]

/-- Witness for C6: a question whose keywords appear in no chunk of a
two-chunk store; the fallback returns both chunks. -/
theorem c6_retrieval_bound_and_fallback_witness :
    ([(⟨("idA").toList, 0, ("hello").toList, none⟩ : RagChunk),
      ⟨("idB").toList, 1, ("world").toList, none⟩] ≠ []) ∧
    (retrieveKeyword (("zzz qqq").toList)
        [⟨("idA").toList, 0, ("hello").toList, none⟩,
         ⟨("idB").toList, 1, ("world").toList, none⟩] =
      [⟨("idA").toList, 0, ("hello").toList, none⟩,
       ⟨("idB").toList, 1, ("world").toList, none⟩].take 6 ∧
     (retrieveKeyword (("zzz qqq").toList)
        [⟨("idA").toList, 0, ("hello").toList, none⟩,
         ⟨("idB").toList, 1, ("world").toList, none⟩]).length =
      min 6 [(⟨("idA").toList, 0, ("hello").toList, none⟩ : RagChunk),
             ⟨("idB").toList, 1, ("world").toList, none⟩].length ∧
     retrieveKeyword (("zzz qqq").toList)
        [⟨("idA").toList, 0, ("hello").toList, none⟩,
         ⟨("idB").toList, 1, ("world").toList, none⟩] ≠ []) :=
  ⟨by decide, c6_retrieval_bound_and_fallback.2 (("zzz qqq").toList)
    [⟨("idA").toList, 0, ("hello").toList, none⟩,
     ⟨("idB").toList, 1, ("world").toList, none⟩] (by decide) (by decide)⟩

/-! ## Keyword scoring and the stable descending sort (C5) -/

theorem mem_insertDescBy {α : Type} {key : α → Nat} {x z : α} :
    ∀ {l : List α}, z ∈ insertDescBy key x l ↔ z = x ∨ z ∈ l := by
  intro l
  induction l with
  | nil => simp [insertDescBy]
  | cons y ys ih =>
    unfold insertDescBy
    by_cases hk : key x ≤ key y
    · rw [if_pos hk]
      simp only [List.mem_cons, ih]
      tauto
    · rw [if_neg hk]
      simp only [List.mem_cons]

theorem sorted_insertDescBy {α : Type} {key : α → Nat} {x : α} :
    ∀ {l : List α}, List.Pairwise (fun a b => key b ≤ key a) l →
      List.Pairwise (fun a b => key b ≤ key a) (insertDescBy key x l) := by
  intro l
  induction l with
  | nil => intro _; simp [insertDescBy]
  | cons y ys ih =>
    intro hs
    rw [List.pairwise_cons] at hs
    unfold insertDescBy
    by_cases hk : key x ≤ key y
    · rw [if_pos hk]
      rw [List.pairwise_cons]
      refine ⟨?_, ih hs.2⟩
      intro z hz
      rcases mem_insertDescBy.mp hz with h1 | h1
      · rw [h1]; exact hk
      · exact hs.1 z h1
    · rw [if_neg hk]
      rw [List.pairwise_cons]
      refine ⟨?_, List.pairwise_cons.mpr hs⟩
      intro z hz
      rcases List.mem_cons.mp hz with h1 | h1
      · rw [h1]; omega
      · have := hs.1 z h1; omega

theorem sorted_sortDescBy_aux {α : Type} {key : α → Nat} :
    ∀ (xs acc : List α), List.Pairwise (fun a b => key b ≤ key a) acc →
      List.Pairwise (fun a b => key b ≤ key a)
        (xs.foldl (fun acc x => insertDescBy key x acc) acc) := by
  intro xs
  induction xs with
  | nil => intro acc h; simpa using h
  | cons x xs ih =>
    intro acc h
    exact ih (insertDescBy key x acc) (sorted_insertDescBy h)

theorem sorted_sortDescBy {α : Type} (key : α → Nat) (xs : List α) :
    List.Pairwise (fun a b => key b ≤ key a) (sortDescBy key xs) :=
  sorted_sortDescBy_aux xs [] (by simp)

theorem filter_insertDescBy {α : Type} {key : α → Nat} {x : α} {s : Nat} :
    ∀ {l : List α}, List.Pairwise (fun a b => key b ≤ key a) l →
      (insertDescBy key x l).filter (fun z => key z == s) =
        if key x = s then l.filter (fun z => key z == s) ++ [x]
        else l.filter (fun z => key z == s) := by
  intro l
  induction l with
  | nil =>
    intro _
    by_cases hx : key x = s <;> simp [insertDescBy, hx]
  | cons y ys ih =>
    intro hs
    rw [List.pairwise_cons] at hs
    have hrec := ih hs.2
    unfold insertDescBy
    by_cases hk : key x ≤ key y
    · rw [if_pos hk]
      by_cases hy : key y = s <;> by_cases hx : key x = s <;>
        simp [List.filter_cons, hy, hx, hrec]
    · rw [if_neg hk]
      push_neg at hk
      by_cases hx : key x = s
      · have hnil : List.filter (fun z => key z == s) (y :: ys) = [] := by
          rw [List.filter_eq_nil_iff]
          intro z hz
          rcases List.mem_cons.mp hz with h1 | h1
          · subst h1; simp; omega
          · have := hs.1 z h1; simp; omega
        have hhead : List.filter (fun z => key z == s) (x :: y :: ys) =
            x :: List.filter (fun z => key z == s) (y :: ys) := by
          rw [List.filter_cons, if_pos (by simpa using hx)]
        rw [if_pos hx, hhead, hnil]
        simp
      · rw [if_neg hx, List.filter_cons, if_neg (by simpa using hx)]

theorem filter_sortDescBy_aux {α : Type} {key : α → Nat} {s : Nat} :
    ∀ (xs acc : List α), List.Pairwise (fun a b => key b ≤ key a) acc →
      (xs.foldl (fun acc x => insertDescBy key x acc) acc).filter (fun z => key z == s) =
        acc.filter (fun z => key z == s) ++ xs.filter (fun z => key z == s) := by
  intro xs
  induction xs with
  | nil => intro acc h; simp
  | cons x xs ih =>
    intro acc h
    rw [List.foldl_cons, ih (insertDescBy key x acc) (sorted_insertDescBy h)]
    rw [filter_insertDescBy h, List.filter_cons]
    by_cases hx : key x = s
    · rw [if_pos hx, if_pos (by simpa using hx)]
      simp
    · rw [if_neg hx, if_neg (by simpa using hx)]

/-- The stability of the embedded sort, in filter form: for every score
value, the sorted list restricted to that score is the input restricted
to that score, in the input's original order. -/
theorem filter_sortDescBy {α : Type} (key : α → Nat) (s : Nat) (xs : List α) :
    (sortDescBy key xs).filter (fun z => key z == s) = xs.filter (fun z => key z == s) := by
  unfold sortDescBy
  rw [filter_sortDescBy_aux xs [] (by simp)]
  simp

/-- Counterexample for C5: with the question `"age age age alice bob"`
the extracted keyword list repeats `age`, so the code's score of a chunk
containing `age` is 3 while its count of distinct contained keywords is
1; the resulting top-6 ranking puts that chunk first, whereas scoring by
distinct keywords would rank the two-keyword chunk first. -/
theorem c5_multiplicity_counterexample :
    scoreOf (extractKeywords (("age age age alice bob").toList))
        ⟨("idA").toList, 0, ("age").toList, none⟩ = 3 ∧
    specDistinctScore (extractKeywords (("age age age alice bob").toList))
        ⟨("idA").toList, 0, ("age").toList, none⟩ = 1 ∧
    scoreOf (extractKeywords (("age age age alice bob").toList))
        ⟨("idA").toList, 0, ("age").toList, none⟩ ≠
      specDistinctScore (extractKeywords (("age age age alice bob").toList))
        ⟨("idA").toList, 0, ("age").toList, none⟩ ∧
    rankCandidates (extractKeywords (("age age age alice bob").toList))
        [⟨("idA").toList, 0, ("age").toList, none⟩,
         ⟨("idB").toList, 1, ("alice bob").toList, none⟩] =
      [(⟨("idA").toList, 0, ("age").toList, none⟩, 3),
       (⟨("idB").toList, 1, ("alice bob").toList, none⟩, 2)] ∧
    (sortDescBy Prod.snd
        [((⟨("idA").toList, 0, ("age").toList, none⟩ : RagChunk),
          specDistinctScore (extractKeywords (("age age age alice bob").toList))
            ⟨("idA").toList, 0, ("age").toList, none⟩),
         ((⟨("idB").toList, 1, ("alice bob").toList, none⟩ : RagChunk),
          specDistinctScore (extractKeywords (("age age age alice bob").toList))
            ⟨("idB").toList, 1, ("alice bob").toList, none⟩)]).take 6 =
      [((⟨("idB").toList, 1, ("alice bob").toList, none⟩ : RagChunk), 2),
       ((⟨("idA").toList, 0, ("age").toList, none⟩ : RagChunk), 1)] := by
  decide

/-- C5 (amended): every candidate is scored by the number of entries of
the extracted keyword list (with multiplicity) contained in its
lowercased content — equal to the distinct count exactly when the
keyword list has no duplicates; candidates are sorted descending by that
score with a stable sort (equal scores keep the candidate order) and the
top 6 are kept. -/
theorem c5_scoring_sort_stable :
    (∀ kw (cands : List RagChunk), rankCandidates kw cands =
      (sortDescBy Prod.snd (cands.map (fun c => (c, scoreOf kw c)))).take 6) ∧
    (∀ kw (c : RagChunk), scoreOf kw c =
      (kw.filter (fun k => containsStr (strToLower c.content) k)).length) ∧
    (∀ kw (cands : List RagChunk), List.Pairwise (fun a b => b.2 ≤ a.2)
      (sortDescBy Prod.snd (cands.map (fun c => (c, scoreOf kw c))))) ∧
    (∀ kw (cands : List RagChunk) s,
      (sortDescBy Prod.snd (cands.map (fun c => (c, scoreOf kw c)))).filter
        (fun p => p.2 == s) =
      (cands.map (fun c => (c, scoreOf kw c))).filter (fun p => p.2 == s)) ∧
    (∀ kw (c : RagChunk), kw.Nodup → scoreOf kw c = specDistinctScore kw c) := by
  refine ⟨?_, ?_, ?_, ?_, ?_⟩
  · intro kw cands
    rfl
  · intro kw c
    rfl
  · intro kw cands
    exact sorted_sortDescBy Prod.snd _
  · intro kw cands s
    exact filter_sortDescBy Prod.snd s _
  · intro kw c hnd
    unfold specDistinctScore scoreOf
    rw [List.dedup_eq_self.mpr hnd]

/-- Witness for C5's amended statement: the duplicate-free hypothesis of
its last conjunct discharged on a concrete keyword list. -/
theorem c5_scoring_sort_stable_witness :
    scoreOf (extractKeywords (("alice bob").toList))
        ⟨("idA").toList, 0, ("age").toList, none⟩ =
      specDistinctScore (extractKeywords (("alice bob").toList))
        ⟨("idA").toList, 0, ("age").toList, none⟩ :=
  c5_scoring_sort_stable.2.2.2.2 (extractKeywords (("alice bob").toList))
    ⟨("idA").toList, 0, ("age").toList, none⟩ (by decide)

/-! ## Upstream 429 mapping (C7) -/

/-- Counterexample for C7: in the non-streaming chat handler an upstream
429 is thrown and swallowed by the generic catch block, so the caller
receives the rate-limit message with HTTP status 500, not 429. -/
theorem c7_nonstreaming_429_yields_500 :
    chatNonStreaming ⟨false, 429, [], []⟩ = ⟨500, some rateLimitMsg, [], []⟩ ∧
    (chatNonStreaming ⟨false, 429, [], []⟩).status ≠ 429 := by
  constructor
  · rfl
  · intro h
    simp [chatNonStreaming, chatLlmGate] at h

/-- C7 (amended): on upstream 429 the streaming relay answers HTTP 429
with exactly the rate-limit message and persists no assistant message;
the non-streaming handler delivers the same message but with HTTP status
500 (throw caught by the generic handler), also persisting nothing. -/
theorem c7_rate_limit_status_mapping :
    ∀ (up : UpstreamResp) (conv user : Str) (cits : List Citation),
      up.ok = false → up.status = 429 →
      relayStreamB up conv user cits = ⟨429, some rateLimitMsg, [], []⟩ ∧
      (relayStreamB up conv user cits).persisted = [] ∧
      chatNonStreaming up = ⟨500, some rateLimitMsg, [], []⟩ := by
  intro up conv user cits hok hst
  unfold relayStreamB chatNonStreaming chatLlmGate
  rw [hok, hst]
  simp

/-- Witness for C7 at a concrete 429 upstream response. -/
theorem c7_rate_limit_status_mapping_witness :
    relayStreamB ⟨false, 429, ("slow down").toList, []⟩ [] [] [] =
      ⟨429, some rateLimitMsg, [], []⟩ ∧
    (relayStreamB ⟨false, 429, ("slow down").toList, []⟩ [] [] []).persisted = [] ∧
    chatNonStreaming ⟨false, 429, ("slow down").toList, []⟩ =
      ⟨500, some rateLimitMsg, [], []⟩ :=
  c7_rate_limit_status_mapping ⟨false, 429, ("slow down").toList, []⟩ [] [] [] rfl rfl

/-! ## Ingestion failure always sets the error status first (C8) -/

/-- C8: every run of either sync handler ends in one of exactly two
shapes — success (`done` status update, then the 200 response) or
failure, in which the status row is set to `error` carrying the thrown
message and the 500 response with that same message is returned
immediately after; so every ingestion failure after a sync has begun
(too few rows, storage insert error, embedding failure) updates
SyncStatus to `error` with the message before the error response. -/
theorem c8_error_status_precedes_response :
    (∀ csv insErr,
      (∃ pre msg, syncCsvTrace csv insErr =
          pre ++ [.statusSet statusError (some msg), .respond 500 (some msg)]) ∨
      (∃ pre, syncCsvTrace csv insErr =
          pre ++ [.statusSet statusDone none, .respond 200 none])) ∧
    (∀ content embedErr insErr,
      (∃ pre msg, embedSyncTrace content embedErr insErr =
          pre ++ [.statusSet statusError (some msg), .respond 500 (some msg)]) ∨
      (∃ pre, embedSyncTrace content embedErr insErr =
          pre ++ [.statusSet statusDone none, .respond 200 none])) := by
  constructor
  · intro csv insErr
    simp only [syncCsvTrace]
    cases hp : parseCsv csv with
    | nil =>
      left
      exact ⟨[.statusSet statusSyncing none], csvTooSmallMsg, by simp⟩
    | cons hrow t =>
      cases t with
      | nil =>
        left
        exact ⟨[.statusSet statusSyncing none], csvTooSmallMsg, by simp⟩
      | cons r2 t2 =>
        rcases hr : runCsvInserts (chunkEvery 50 (buildChunks hrow 0 (r2 :: t2))) insErr 0
          with ⟨evs, res⟩
        cases res with
        | none =>
          right
          refine ⟨.statusSet statusSyncing none :: .deleteChunks :: evs, ?_⟩
          simp [hr]
        | some e =>
          left
          refine ⟨.statusSet statusSyncing none :: .deleteChunks :: evs, e, ?_⟩
          simp [hr]
  · intro content embedErr insErr
    simp only [embedSyncTrace]
    rcases hr : runEmbedInserts (chunkText content) embedErr insErr 0 with ⟨evs, res⟩
    cases res with
    | none =>
      right
      refine ⟨.statusSet statusSyncing none :: .deleteChunks :: evs, ?_⟩
      simp [hr]
    | some e =>
      left
      refine ⟨.statusSet statusSyncing none :: .deleteChunks :: evs, e, ?_⟩
      simp [hr]

/-! ## The relay's answer accumulation is a function of the concatenated
upstream bytes (C2) -/

theorem drainUpGo_cons_ne {c : Char} (h : c ≠ '\n') (rest cur ans : Str) :
    drainUpGo (c :: rest) cur ans = drainUpGo rest (cur ++ [c]) ans := by
  conv_lhs => rw [drainUpGo.eq_def]
  simp [h]

theorem drainUpGo_cons_nl (rest cur ans : Str) :
    drainUpGo ('\n' :: rest) cur ans = drainUpGo rest [] (processLineUp ans cur) := rfl

theorem drainUpGo_append :
    ∀ (a b cur ans : Str), drainUpGo (a ++ b) cur ans =
      drainUpGo b (drainUpGo a cur ans).1 (drainUpGo a cur ans).2 := by
  intro a
  induction a with
  | nil => intro b cur ans; rfl
  | cons c rest ih =>
    intro b cur ans
    by_cases hc : c = '\n'
    · subst hc
      rw [List.cons_append, drainUpGo_cons_nl, drainUpGo_cons_nl, ih]
    · rw [List.cons_append, drainUpGo_cons_ne hc, drainUpGo_cons_ne hc, ih]

theorem drainUpGo_no_newline :
    ∀ {p : Str}, '\n' ∉ p → ∀ (cur ans : Str), drainUpGo p cur ans = (cur ++ p, ans) := by
  intro p
  induction p with
  | nil => intro _ cur ans; simp [drainUpGo]
  | cons c rest ih =>
    intro hp cur ans
    have hc : c ≠ '\n' := fun h => hp (h ▸ List.mem_cons_self c rest)
    rw [drainUpGo_cons_ne hc, ih (fun h => hp (List.mem_cons_of_mem c h))]
    simp

theorem drainUpGo_fst_no_newline :
    ∀ (buf cur ans : Str), '\n' ∉ cur → '\n' ∉ (drainUpGo buf cur ans).1 := by
  intro buf
  induction buf with
  | nil => intro cur ans h; simpa [drainUpGo] using h
  | cons c rest ih =>
    intro cur ans h
    by_cases hc : c = '\n'
    · subst hc
      show '\n' ∉ (drainUpGo rest [] (processLineUp ans cur)).1
      exact ih [] _ (by simp)
    · rw [drainUpGo_cons_ne hc]
      refine ih _ _ ?_
      intro hmem
      rcases List.mem_append.mp hmem with h1 | h1
      · exact h h1
      · exact hc (List.mem_singleton.mp h1).symm

theorem accumAnswer_foldl_eq :
    ∀ (frags : List Str) (st : Str × Str), '\n' ∉ st.1 →
      frags.foldl (fun st frag => drainUpGo (st.1 ++ frag) [] st.2) st =
        drainUpGo frags.flatten st.1 st.2 := by
  intro frags
  induction frags with
  | nil =>
    intro st h
    simp [drainUpGo]
  | cons f fs ih =>
    intro st h
    rw [List.foldl_cons, List.flatten_cons]
    have hstep : drainUpGo (st.1 ++ f) [] st.2 = drainUpGo f st.1 st.2 := by
      rw [drainUpGo_append, drainUpGo_no_newline h]
      simp
    rw [hstep, ih _ (drainUpGo_fst_no_newline f st.1 st.2 h), drainUpGo_append]

/-- The accumulated answer depends only on the concatenation of the
upstream byte chunks, not on how the stream was fragmented. -/
theorem accumAnswer_eq_flatten (frags : List Str) :
    accumAnswer frags = (drainUpGo frags.flatten [] []).2 := by
  unfold accumAnswer
  rw [accumAnswer_foldl_eq frags ([], []) (by simp)]

/-- Counterexample for C2: an invocation that reaches the streaming relay
with a valid conversation and user but whose upstream stream carries no
content deltas persists zero assistant messages, not one. -/
theorem c2_counterexample_empty_answer :
    (relayStreamB ⟨true, 200, [], [("data: [DONE]\n\n").toList]⟩
      (("c").toList) (("u").toList) []).persisted = [] ∧
    (relayStreamB ⟨true, 200, [], [("data: [DONE]\n\n").toList]⟩
      (("c").toList) (("u").toList) []).persisted.length ≠ 1 := by
  constructor
  · rfl
  · have h1 : (relayStreamB ⟨true, 200, [], [("data: [DONE]\n\n").toList]⟩
        (("c").toList) (("u").toList) []).persisted = [] := rfl
    rw [h1]
    simp

/-- C2 (amended): the streaming relay persists at most one assistant
message per invocation — exactly one when a conversation id was supplied
and the accumulated answer is non-empty — and (with the insert issued
once, from the fully accumulated answer) the number of persisted rows
depends only on the concatenated upstream bytes, not on their
fragmentation into chunks. -/
theorem c2_persist_at_most_once_fragmentation_free :
    (∀ (up : UpstreamResp) (conv user : Str) (cits : List Citation),
      (relayStreamB up conv user cits).persisted.length ≤ 1) ∧
    (∀ (st : Nat) (eb : Str) (frags : List Str) (conv user : Str) (cits : List Citation),
      conv ≠ [] → user ≠ [] → accumAnswer frags ≠ [] →
      (relayStreamB ⟨true, st, eb, frags⟩ conv user cits).persisted =
        [⟨conv, user, assistantRole, accumAnswer frags, cits⟩]) ∧
    (∀ (up : UpstreamResp) (conv user : Str) (cits : List Citation) (frags2 : List Str),
      up.fragments.flatten = frags2.flatten →
      (relayStreamB up conv user cits).persisted =
        (relayStreamB ⟨up.ok, up.status, up.errBody, frags2⟩ conv user cits).persisted) := by
  refine ⟨?_, ?_, ?_⟩
  · intro up conv user cits
    unfold relayStreamB persistAssistant
    split_ifs <;> simp <;> split_ifs <;> simp
  · intro st eb frags conv user cits hconv huser hans
    show persistAssistant conv user (accumAnswer frags) cits = _
    unfold persistAssistant
    rw [if_pos]
    simp [List.isEmpty_eq_false, hconv, huser, hans]
  · intro up conv user cits frags2 hflat
    have haccum : accumAnswer up.fragments = accumAnswer frags2 := by
      rw [accumAnswer_eq_flatten, accumAnswer_eq_flatten, hflat]
    unfold relayStreamB
    split_ifs with hok
    · rfl
    · rfl
    · rfl
    · show (⟨200, none, _, persistAssistant conv user (accumAnswer up.fragments) cits⟩ :
          RelayResult).persisted = (⟨200, none, _,
          persistAssistant conv user (accumAnswer frags2) cits⟩ : RelayResult).persisted
      rw [haccum]

/-- Witness for C2's amended statement: one concrete delta event in one
fragment persists exactly one row, and re-fragmenting the same bytes
leaves the persisted rows unchanged. -/
theorem c2_persist_at_most_once_fragmentation_free_witness :
    (relayStreamB ⟨true, 200, [],
        [("data: \x7b\"choices\":[\x7b\"delta\":\x7b\"content\":\"Hi\"\x7d\x7d]\x7d\n").toList]⟩
      (("c").toList) (("u").toList) []).persisted =
      [⟨("c").toList, ("u").toList, assistantRole,
        accumAnswer
          [("data: \x7b\"choices\":[\x7b\"delta\":\x7b\"content\":\"Hi\"\x7d\x7d]\x7d\n").toList],
        []⟩] ∧
    (relayStreamB ⟨true, 200, [],
        [("data: \x7b\"choices\":").toList,
         ("[\x7b\"delta\":\x7b\"content\":\"Hi\"\x7d\x7d]\x7d\n").toList]⟩
      (("c").toList) (("u").toList) []).persisted =
    (relayStreamB ⟨true, 200, [],
        [("data: \x7b\"choices\":[\x7b\"delta\":\x7b\"content\":\"Hi\"\x7d\x7d]\x7d\n").toList]⟩
      (("c").toList) (("u").toList) []).persisted :=
  ⟨c2_persist_at_most_once_fragmentation_free.2.1 200 []
      [("data: \x7b\"choices\":[\x7b\"delta\":\x7b\"content\":\"Hi\"\x7d\x7d]\x7d\n").toList]
      (("c").toList) (("u").toList) [] (by decide) (by decide) (by decide),
   c2_persist_at_most_once_fragmentation_free.2.2
      ⟨true, 200, [], [("data: \x7b\"choices\":").toList,
        ("[\x7b\"delta\":\x7b\"content\":\"Hi\"\x7d\x7d]\x7d\n").toList]⟩
      (("c").toList) (("u").toList) []
      [("data: \x7b\"choices\":[\x7b\"delta\":\x7b\"content\":\"Hi\"\x7d\x7d]\x7d\n").toList]
      (by decide)⟩

/-! ## String prefix utilities (C3) -/

theorem startsWithStr_append_self : ∀ (p s : Str), startsWithStr (p ++ s) p = true := by
  intro p
  induction p with
  | nil => intro s; cases s <;> rfl
  | cons c cs ih =>
    intro s
    simp [startsWithStr, ih]

theorem startsWithStr_refl (p : Str) : startsWithStr p p = true := by
  have := startsWithStr_append_self p []
  simpa using this

theorem startsWithStr_ne_head {c d : Char} (h : c ≠ d) (x y : Str) :
    startsWithStr (c :: x) (d :: y) = false := by
  simp [startsWithStr, h]

/-! ## JSON string escaping round-trips (C3) -/

theorem hexVal_hexDig (n : Nat) (h : n < 16) : hexVal (hexDig n) = some n := by
  revert h
  revert n
  decide

theorem hexDig_ne_nl (n : Nat) : hexDig n ≠ '\n' := by
  by_cases h : n < 16
  · revert h; revert n; decide
  · unfold hexDig
    rw [List.getD_eq_default]
    · decide
    · unfold hexDigits
      simp at h ⊢
      omega

theorem jsonStringParse_cons_plain {c : Char} (h1 : c ≠ '"') (h2 : c ≠ '\\') (r : Str) :
    jsonStringParse (c :: r) = (jsonStringParse r).map (fun p => (c :: p.1, p.2)) := by
  conv_lhs => rw [jsonStringParse.eq_def]
  simp [h1, h2]

theorem jsonStringParse_u (a b : Nat) (ha : a < 16) (hb : b < 16) (r : Str) :
    jsonStringParse ('\\' :: 'u' :: '0' :: '0' :: hexDig a :: hexDig b :: r) =
      (jsonStringParse r).map (fun p => (Char.ofNat (a * 16 + b) :: p.1, p.2)) := by
  have h0 : hexVal '0' = some 0 := rfl
  show (match hexVal '0', hexVal '0', hexVal (hexDig a), hexVal (hexDig b) with
    | some x1, some x2, some x3, some x4 =>
      (jsonStringParse r).map
        (fun (p : Str × Str) => (Char.ofNat (x1 * 4096 + x2 * 256 + x3 * 16 + x4) :: p.1, p.2))
    | _, _, _, _ => none) = _
  rw [h0, hexVal_hexDig a ha, hexVal_hexDig b hb]
  show (jsonStringParse r).map
    (fun (p : Str × Str) => (Char.ofNat (0 * 4096 + 0 * 256 + a * 16 + b) :: p.1, p.2)) = _
  have harith : 0 * 4096 + 0 * 256 + a * 16 + b = a * 16 + b := by omega
  rw [harith]

theorem jsonStringParse_escape :
    ∀ (s t : Str), jsonStringParse (jsonEscape s ++ '"' :: t) = some (s, t) := by
  intro s
  induction s with
  | nil =>
    intro t
    rfl
  | cons c cs ih =>
    intro t
    have hesc : jsonEscape (c :: cs) = jsonEscapeChar c ++ jsonEscape cs := by
      unfold jsonEscape
      rw [List.map_cons, List.flatten_cons]
    rw [hesc, List.append_assoc]
    unfold jsonEscapeChar
    split_ifs with h1 h2 h3 h4 h5 h6 h7 h8
    · subst h1
      show (jsonStringParse (jsonEscape cs ++ '"' :: t)).map
        (fun p => ('"' :: p.1, p.2)) = _
      rw [ih]
      rfl
    · subst h2
      show (jsonStringParse (jsonEscape cs ++ '"' :: t)).map
        (fun p => ('\\' :: p.1, p.2)) = _
      rw [ih]
      rfl
    · subst h3
      show (jsonStringParse (jsonEscape cs ++ '"' :: t)).map
        (fun p => ('\n' :: p.1, p.2)) = _
      rw [ih]
      rfl
    · subst h4
      show (jsonStringParse (jsonEscape cs ++ '"' :: t)).map
        (fun p => ('\r' :: p.1, p.2)) = _
      rw [ih]
      rfl
    · subst h5
      show (jsonStringParse (jsonEscape cs ++ '"' :: t)).map
        (fun p => ('\t' :: p.1, p.2)) = _
      rw [ih]
      rfl
    · subst h6
      show (jsonStringParse (jsonEscape cs ++ '"' :: t)).map
        (fun p => ('\x08' :: p.1, p.2)) = _
      rw [ih]
      rfl
    · subst h7
      show (jsonStringParse (jsonEscape cs ++ '"' :: t)).map
        (fun p => ('\x0c' :: p.1, p.2)) = _
      rw [ih]
      rfl
    · show jsonStringParse ('\\' :: 'u' :: '0' :: '0' :: hexDig (c.toNat / 16) ::
        hexDig (c.toNat % 16) :: (jsonEscape cs ++ '"' :: t)) = _
      rw [jsonStringParse_u (c.toNat / 16) (c.toNat % 16) (by omega) (by omega), ih]
      have harith : c.toNat / 16 * 16 + c.toNat % 16 = c.toNat := by omega
      rw [harith, Char.ofNat_toNat]
      rfl
    · rw [List.singleton_append, jsonStringParse_cons_plain h1 h2, ih]
      rfl

theorem parseDeltaLine_mk (s : Str) : parseDeltaLine (mkDeltaPayload s) = some s := by
  unfold parseDeltaLine mkDeltaPayload
  rw [List.append_assoc]
  have h := startsWithStr_append_self deltaWrapPre (jsonEscape s ++ '"' :: deltaWrapSuf)
  simp only [h, List.drop_left, jsonStringParse_escape]
  simp

/-! ## The emitted SSE payloads contain no raw newline (C3) -/

theorem nl_not_mem_jsonEscapeChar (c : Char) : '\n' ∉ jsonEscapeChar c := by
  unfold jsonEscapeChar
  split_ifs with h1 h2 h3 h4 h5 h6 h7 h8
  · decide
  · decide
  · decide
  · decide
  · decide
  · decide
  · decide
  · intro hm
    simp only [List.mem_cons, List.not_mem_nil, or_false] at hm
    rcases hm with h | h | h | h | h | h
    · exact absurd h (by decide)
    · exact absurd h (by decide)
    · exact absurd h (by decide)
    · exact absurd h (by decide)
    · exact hexDig_ne_nl _ h.symm
    · exact hexDig_ne_nl _ h.symm
  · intro hm
    exact h3 (List.mem_singleton.mp hm).symm

theorem nl_not_mem_jsonEscape (s : Str) : '\n' ∉ jsonEscape s := by
  intro hm
  unfold jsonEscape at hm
  rw [List.mem_flatten] at hm
  obtain ⟨l, hl, hml⟩ := hm
  obtain ⟨c, _, rfl⟩ := List.mem_map.mp hl
  exact nl_not_mem_jsonEscapeChar c hml

theorem nl_not_mem_mkDeltaPayload (ch : Str) : '\n' ∉ mkDeltaPayload ch := by
  intro hm
  unfold mkDeltaPayload at hm
  simp only [List.mem_append, List.mem_cons] at hm
  rcases hm with (h | h) | h | h
  · exact absurd h (by decide)
  · exact nl_not_mem_jsonEscape ch h
  · exact absurd h (by decide)
  · exact absurd h (by decide)

theorem nl_not_mem_natToStr (n : Nat) : '\n' ∉ natToStr n := by
  induction n using natToStr.induct with
  | case1 n h =>
    rw [natToStr, if_pos h]
    intro hm
    exact hexDig_ne_nl n (List.mem_singleton.mp hm).symm
  | case2 n h ih =>
    rw [natToStr, if_neg h]
    intro hm
    rcases List.mem_append.mp hm with h1 | h1
    · exact ih h1
    · exact hexDig_ne_nl _ (List.mem_singleton.mp h1).symm

theorem citObjJson_head (c : Citation) : ∃ t, citObjJson c = '\x7b' :: t := by
  unfold citObjJson
  have h1 : ("\x7b\"chunk_id\":\"").toList = '\x7b' :: ("\"chunk_id\":\"").toList := by decide
  rw [h1]
  simp only [List.cons_append]
  exact ⟨_, rfl⟩

theorem nl_not_mem_citObjJson (c : Citation) : '\n' ∉ citObjJson c := by
  intro hm
  unfold citObjJson at hm
  simp only [List.mem_append] at hm
  rcases hm with (((((((((h | h) | h) | h) | h) | h) | h) | h) | h) | h) | h
  · exact absurd h (by decide)
  · exact nl_not_mem_jsonEscape _ h
  · exact absurd h (by decide)
  · exact nl_not_mem_natToStr _ h
  · exact absurd h (by decide)
  · exact nl_not_mem_jsonEscape _ h
  · exact absurd h (by decide)
  · exact nl_not_mem_natToStr _ h
  · exact absurd h (by decide)
  · exact nl_not_mem_natToStr _ h
  · exact absurd h (by decide)

theorem mem_intersperse_inv {α : Type} {x a : α} :
    ∀ {l : List α}, x ∈ List.intersperse a l → x = a ∨ x ∈ l := by
  intro l
  induction l with
  | nil => intro h; cases h
  | cons b tl ih =>
    cases tl with
    | nil =>
      intro h
      right
      simpa using h
    | cons c tl' =>
      rw [List.intersperse_cons_cons]
      intro h
      rcases List.mem_cons.mp h with h1 | h1
      · right; exact h1 ▸ List.mem_cons_self _ _
      · rcases List.mem_cons.mp h1 with h2 | h2
        · left; exact h2
        · rcases ih h2 with h3 | h3
          · left; exact h3
          · right; exact List.mem_cons_of_mem _ h3

theorem nl_not_mem_citsJson (cs : List Citation) : '\n' ∉ citsJson cs := by
  intro hm
  unfold citsJson at hm
  rcases List.mem_cons.mp hm with h | h
  · exact absurd h (by decide)
  · rcases List.mem_append.mp h with h1 | h1
    · unfold List.intercalate at h1
      rw [List.mem_flatten] at h1
      obtain ⟨piece, hpiece, hmem⟩ := h1
      rcases mem_intersperse_inv hpiece with h2 | h2
      · subst h2; exact absurd hmem (by decide)
      · obtain ⟨c, _, rfl⟩ := List.mem_map.mp h2
        exact nl_not_mem_citObjJson c hmem
    · exact absurd h1 (by decide)

theorem citsJson_getLast (cs : List Citation) : (citsJson cs).getLast? = some ']' := by
  unfold citsJson
  rw [show (('[' : Char) :: (List.intercalate [','] (cs.map citObjJson) ++ [']'])) =
      ['['] ++ (List.intercalate [','] (cs.map citObjJson) ++ [']']) from rfl]
  rw [List.getLast?_append, List.getLast?_append]
  rfl

theorem intercalate_cons_exists {α : Type} (sep x : List α) (xs : List (List α)) :
    ∃ r, List.intercalate sep (x :: xs) = x ++ r := by
  cases xs with
  | nil => exact ⟨[], by simp [List.intercalate, List.intersperse]⟩
  | cons y ys =>
    exact ⟨sep ++ List.intercalate sep (y :: ys),
      by simp [List.intercalate, List.intersperse_cons_cons]⟩

theorem citsJson_ne_doneTok (cs : List Citation) : citsJson cs ≠ doneTok := by
  cases cs with
  | nil => decide
  | cons c cs' =>
    intro h
    obtain ⟨t, ht⟩ := citObjJson_head c
    unfold citsJson at h
    obtain ⟨r, hr⟩ := intercalate_cons_exists [','] (citObjJson c) (cs'.map citObjJson)
    rw [List.map_cons, hr, ht] at h
    have hdone : doneTok = '[' :: 'D' :: ("ONE]").toList := by decide
    rw [hdone] at h
    simp only [List.cons_append, List.append_assoc] at h
    have h2 := (List.cons.injEq _ _ _ _).mp h
    have h3 := (List.cons.injEq _ _ _ _).mp h2.2
    exact absurd h3.1 (by decide)

/-! ## Trim and carriage-return handling on the emitted lines (C3) -/

theorem jsTrim_of_ends (a b : Char) (mid : Str) (ha : isWS a = false) (hb : isWS b = false) :
    jsTrim (a :: (mid ++ [b])) = a :: (mid ++ [b]) := by
  unfold jsTrim
  rw [List.dropWhile_cons, if_neg (by simp [ha])]
  have h2 : ((a : Char) :: (mid ++ [b])).reverse = b :: (mid.reverse ++ [a]) := by simp
  rw [h2, List.dropWhile_cons, if_neg (by simp [hb])]
  simp

theorem stripCr_of_getLast {s : Str} (h : s.getLast? ≠ some '\r') : stripCr s = s := by
  unfold stripCr
  rw [if_neg h]

/-! ## Stepping the client's reader over the relay's events (C3) -/

theorem clientGo_cons_ne {c : Char} (h : c ≠ '\n') (rest cur acc : Str) :
    clientGo (c :: rest) cur acc = clientGo rest (cur ++ [c]) acc := by
  conv_lhs => rw [clientGo.eq_def]
  simp [h]

theorem clientGo_nl (rest cur acc : Str) :
    clientGo ('\n' :: rest) cur acc =
      (let line := stripCr cur
       if (jsTrim line).isEmpty || startsWithStr line [':'] then clientGo rest [] acc
       else if startsWithStr line eventCitationsPre then clientGo rest [] acc
       else if startsWithStr line dataTag && !startsWithStr rest zeroGuard then
         let jsonStr := jsTrim (line.drop 6)
         if rest.isEmpty && startsWithStr jsonStr ['['] then clientGo rest [] acc
         else if jsonStr = doneTok then (acc, rest)
         else if startsWithStr jsonStr ['['] then clientGo rest [] acc
         else
           match parseDeltaLine jsonStr with
           | some delta => clientGo rest [] (if delta.isEmpty then acc else acc ++ delta)
           | none => (acc, cur ++ '\n' :: rest)
       else clientGo rest [] acc) := rfl

theorem clientGo_blank (T acc : Str) : clientGo ('\n' :: T) [] acc = clientGo T [] acc := rfl

theorem clientGo_skipline : ∀ (A tail cur acc : Str), '\n' ∉ A →
    clientGo (A ++ tail) cur acc = clientGo tail (cur ++ A) acc := by
  intro A
  induction A with
  | nil => intro tail cur acc _; simp
  | cons c A' ih =>
    intro tail cur acc hA
    have hc : c ≠ '\n' := fun hh => hA (hh ▸ List.mem_cons_self c A')
    rw [List.cons_append, clientGo_cons_ne hc,
      ih tail _ acc (fun hh => hA (List.mem_cons_of_mem c hh)),
      List.append_assoc, List.singleton_append]

theorem mkDeltaPayload_shape (ch : Str) :
    mkDeltaPayload ch = '\x7b' ::
      ((("\"choices\":[\x7b\"delta\":\x7b\"content\":\"").toList ++ jsonEscape ch ++
        '"' :: ("\x7d\x7d]").toList) ++ ['\x7d']) := by
  unfold mkDeltaPayload deltaWrapPre deltaWrapSuf
  have e1 : ("\x7b\"choices\":[\x7b\"delta\":\x7b\"content\":\"").toList =
      '\x7b' :: ("\"choices\":[\x7b\"delta\":\x7b\"content\":\"").toList := by decide
  have e2 : ("\x7d\x7d]\x7d").toList = ("\x7d\x7d]").toList ++ ['\x7d'] := by decide
  rw [e1, e2]
  simp [List.cons_append, List.append_assoc]

theorem jsTrim_mkDeltaPayload (ch : Str) : jsTrim (mkDeltaPayload ch) = mkDeltaPayload ch := by
  rw [mkDeltaPayload_shape]
  exact jsTrim_of_ends '\x7b' '\x7d' _ (by decide) (by decide)

theorem mkDeltaPayload_ne_doneTok (ch : Str) : mkDeltaPayload ch ≠ doneTok := by
  rw [mkDeltaPayload_shape]
  intro h
  have hd : doneTok = '[' :: ("DONE]").toList := by decide
  rw [hd] at h
  exact absurd ((List.cons.injEq _ _ _ _).mp h).1 (by decide)

theorem mkDeltaPayload_not_bracket (ch : Str) :
    startsWithStr (mkDeltaPayload ch) ['['] = false := by
  rw [mkDeltaPayload_shape]
  exact startsWithStr_ne_head (by decide) _ _

theorem mkDeltaPayload_getLast (ch : Str) :
    (mkDeltaPayload ch).getLast? = some '\x7d' := by
  show ((deltaWrapPre ++ jsonEscape ch) ++ ('"' :: deltaWrapSuf)).getLast? = some '\x7d'
  rw [List.getLast?_append]
  rfl

theorem dataTag_cons (z : Str) :
    dataTag ++ z = 'd' :: (("ata: ").toList ++ z) := by
  have h : dataTag = 'd' :: ("ata: ").toList := by decide
  rw [h, List.cons_append]

theorem dataline_guard1 (z : Str) :
    ((jsTrim (dataTag ++ z)).isEmpty || startsWithStr (dataTag ++ z) [':']) = false := by
  have h1 : (jsTrim (dataTag ++ z)).isEmpty = false := by
    rw [List.isEmpty_eq_false]
    exact jsTrim_ne_nil_of_mem
      (List.mem_append.mpr (Or.inl (by decide : 'd' ∈ dataTag))) (by decide)
  have h2 : startsWithStr (dataTag ++ z) [':'] = false := by
    rw [dataTag_cons]
    exact startsWithStr_ne_head (by decide) _ _
  rw [h1, h2]
  rfl

theorem dataline_guard2 (z : Str) :
    startsWithStr (dataTag ++ z) eventCitationsPre = false := by
  rw [dataTag_cons]
  have h : eventCitationsPre = 'e' :: ("vent: citations").toList := by decide
  rw [h]
  exact startsWithStr_ne_head (by decide) _ _

theorem dataline_guard3 (z : Str) :
    startsWithStr (dataTag ++ z) dataTag = true :=
  startsWithStr_append_self dataTag z

theorem rest_not_zeroGuard (T : Str) : startsWithStr ('\n' :: T) zeroGuard = false := by
  have h : zeroGuard = '\x7b' :: ("\"0\"").toList := by decide
  rw [h]
  exact startsWithStr_ne_head (by decide) _ _

theorem dataline_drop6 (z : Str) : (dataTag ++ z).drop 6 = z := by
  have h : (6 : Nat) = dataTag.length := by decide
  rw [h, List.drop_left]

theorem dataline_stripCr {z : Str} (h : z.getLast? ≠ some '\r') :
    stripCr (dataTag ++ z) = dataTag ++ z := by
  apply stripCr_of_getLast
  rw [List.getLast?_append]
  cases hz : z.getLast? with
  | none => simp [hz]; decide
  | some a =>
    simp [hz]
    intro he
    exact h (by rw [hz, he])

theorem clientGo_deltaEvent (ch T acc : Str) :
    clientGo (deltaEvent ch ++ T) [] acc = clientGo T [] (acc ++ ch) := by
  have hsplit : deltaEvent ch ++ T =
      (dataTag ++ mkDeltaPayload ch) ++ ('\n' :: '\n' :: T) := by
    unfold deltaEvent nl2
    simp [List.append_assoc]
  rw [hsplit]
  have hnoNl : '\n' ∉ dataTag ++ mkDeltaPayload ch := by
    intro hm
    rcases List.mem_append.mp hm with h | h
    · exact absurd h (by decide)
    · exact nl_not_mem_mkDeltaPayload ch h
  rw [clientGo_skipline _ _ [] acc hnoNl, List.nil_append, clientGo_nl]
  have hstrip : stripCr (dataTag ++ mkDeltaPayload ch) = dataTag ++ mkDeltaPayload ch :=
    dataline_stripCr (by rw [mkDeltaPayload_getLast]; decide)
  simp only [hstrip, dataline_guard1, dataline_guard2, dataline_guard3, rest_not_zeroGuard,
    dataline_drop6, jsTrim_mkDeltaPayload, Bool.false_eq_true, if_false, Bool.and_true,
    Bool.not_false, Bool.and_self, if_true, List.isEmpty_cons, Bool.false_and,
    mkDeltaPayload_not_bracket, parseDeltaLine_mk]
  rw [if_neg (mkDeltaPayload_ne_doneTok ch)]
  have hacc : (if ch.isEmpty = true then acc else acc ++ ch) = acc ++ ch := by
    cases ch <;> simp
  rw [hacc, clientGo_blank]

theorem citsJson_jsTrim (cs : List Citation) : jsTrim (citsJson cs) = citsJson cs := by
  show jsTrim ('[' :: (List.intercalate [','] (cs.map citObjJson) ++ [']'])) = _
  exact jsTrim_of_ends '[' ']' _ (by decide) (by decide)

theorem citsJson_bracket (cs : List Citation) : startsWithStr (citsJson cs) ['['] = true := by
  show startsWithStr ('[' :: _) ['['] = true
  simp [startsWithStr]

theorem clientGo_citationsEvent (cs : List Citation) (T acc : Str) :
    clientGo (citationsEvent cs ++ T) [] acc = clientGo T [] acc := by
  have hsplit : citationsEvent cs ++ T =
      eventCitationsPre ++ ('\n' :: ((dataTag ++ citsJson cs) ++ ('\n' :: '\n' :: T))) := by
    unfold citationsEvent nl2
    have h : ("event: citations\ndata: ").toList =
        (eventCitationsPre ++ ['\n']) ++ dataTag := by decide
    rw [h]
    simp [List.append_assoc]
  rw [hsplit]
  have hnoNl1 : '\n' ∉ eventCitationsPre := by decide
  rw [clientGo_skipline _ _ [] acc hnoNl1, List.nil_append]
  have hstep2 : clientGo ('\n' :: ((dataTag ++ citsJson cs) ++ ('\n' :: '\n' :: T)))
      eventCitationsPre acc =
      clientGo ((dataTag ++ citsJson cs) ++ ('\n' :: '\n' :: T)) [] acc := by
    rw [clientGo_nl]
    have h1 : stripCr eventCitationsPre = eventCitationsPre := by decide
    have h2 : ((jsTrim eventCitationsPre).isEmpty ||
        startsWithStr eventCitationsPre [':']) = false := by decide
    have h3 : startsWithStr eventCitationsPre eventCitationsPre = true := by decide
    simp only [h1, h2, h3, Bool.false_eq_true, if_false, if_true]
  rw [hstep2]
  have hnoNl2 : '\n' ∉ dataTag ++ citsJson cs := by
    intro hm
    rcases List.mem_append.mp hm with h | h
    · exact absurd h (by decide)
    · exact nl_not_mem_citsJson cs h
  rw [clientGo_skipline _ _ [] acc hnoNl2, List.nil_append, clientGo_nl]
  have hstrip : stripCr (dataTag ++ citsJson cs) = dataTag ++ citsJson cs :=
    dataline_stripCr (by rw [citsJson_getLast]; decide)
  simp only [hstrip, dataline_guard1, dataline_guard2, dataline_guard3, rest_not_zeroGuard,
    dataline_drop6, citsJson_jsTrim, Bool.false_eq_true, if_false, Bool.and_true,
    Bool.not_false, Bool.and_self, if_true, List.isEmpty_cons, Bool.false_and,
    citsJson_bracket]
  rw [if_neg (citsJson_ne_doneTok cs)]
  exact clientGo_blank T acc

theorem clientGo_doneEvent (acc : Str) : clientGo doneEvent [] acc = (acc, ['\n']) := rfl

theorem chunkEvery_flatten {α : Type} (n : Nat) (hn : n ≠ 0) :
    ∀ l : List α, (chunkEvery n l).flatten = l := by
  intro l
  induction l using chunkEvery.induct n with
  | case1 l h =>
    rw [chunkEvery, dif_pos h]
    simp only [Bool.or_eq_true, beq_iff_eq, List.isEmpty_iff] at h
    rcases h with h1 | h1
    · simp [h1]
    · exact absurd h1 hn
  | case2 l h ih =>
    rw [chunkEvery, dif_neg h]
    simp [ih]

theorem clientGo_deltas (chunks : List Str) :
    ∀ acc, clientGo ((chunks.map deltaEvent).flatten ++ doneEvent) [] acc =
      (acc ++ chunks.flatten, ['\n']) := by
  induction chunks with
  | nil =>
    intro acc
    simp [clientGo_doneEvent]
  | cons ch chs ih =>
    intro acc
    rw [List.map_cons, List.flatten_cons, List.append_assoc, clientGo_deltaEvent, ih]
    simp

/-- C3: the SSE byte stream produced by the persist-then-replay relay —
citations preamble event, delta events carrying the 6-character slices of
the collected answer, and the final `data: [DONE]` line — replayed
through the client's line-buffering reader and flush, reconstructs
exactly the relay's accumulated `fullAnswer`. -/
theorem c3_sse_round_trip (fullAnswer : Str) (cits : List Citation) :
    clientRun (relayBytes cits fullAnswer) = fullAnswer := by
  unfold clientRun relayBytes
  rw [List.append_assoc, clientGo_citationsEvent, clientGo_deltas]
  show clientFlush ['\n'] ([] ++ (chunkEvery 6 fullAnswer).flatten) = _
  rw [List.nil_append, chunkEvery_flatten 6 (by omega)]
  rfl
